import Mathlib

/-!
Verification of the `autoware_lanelet2_map_validator` scheduling and
traffic-light-facing logic, shallowly embedded from
`src/map/autoware_lanelet2_map_validator/src/lib/utils.cpp` and
`src/map/autoware_lanelet2_map_validator/src/validators/traffic_light/traffic_light_facing.cpp`.

C++ `std::unordered_map`s keyed by validator name are embedded as association
lists with pairwise distinct keys (the map invariant), `int` counters as `Int`,
and functions that throw exceptions as `Except String`-valued functions.
-/

namespace AutowareValidation

/-- Embeds `ValidatorInfo::Severity` from `lib/utils.cpp`: `ERROR, WARNING, INFO, NONE`
(in this declaration order, so the C++ integer values are 0,1,2,3). -/
inductive VSeverity where
  | ERROR
  | WARNING
  | INFO
  | NONE
deriving DecidableEq, Repr

/-- The C++ integer value of a `ValidatorInfo::Severity` enumerator. -/
def VSeverity.toInt : VSeverity → Int
  | .ERROR => 0
  | .WARNING => 1
  | .INFO => 2
  | .NONE => 3

/-- Embeds `lanelet::validation::Severity` (external lanelet2 enum): Error, Warning, Info. -/
inductive LSeverity where
  | Error
  | Warning
  | Info
deriving DecidableEq, Repr

/-- Embeds `lanelet::validation::toString` on severities (external lanelet2 helper). -/
def LSeverity.asString : LSeverity → String
  | .Error => "Error"
  | .Warning => "Warning"
  | .Info => "Info"

/-- Embeds `struct ValidatorInfo` from `lib/utils.cpp`: the prerequisite name list, the
per-prerequisite forgive-warnings map (an association list; absent keys model
absent `forgive_warnings` entries in the input JSON) and the accumulated
`max_severity` (default `NONE`). -/
structure ValidatorInfo where
  prerequisites : List String
  forgive_warnings : List (String × Bool)
  max_severity : VSeverity
deriving DecidableEq, Repr

/-- Embeds `using Validators = std::unordered_map<std::string, ValidatorInfo>`,
embedded as an association list; theorems assume the map invariant
(`(keys vs).Nodup`). -/
abbrev Validators := List (String × ValidatorInfo)

/-- The set of validator names present in the map. -/
def keys (vs : Validators) : List String := vs.map Prod.fst

/-- The prerequisite list the map records for name `n` (empty when `n` is not a
key, a case the C++ loops never query). -/
def prereqsOf (vs : Validators) (n : String) : List String :=
  match vs.find? (fun v => v.1 == n) with
  | some v => v.2.prerequisites
  | none => []

/-- The dependency graph of `create_validation_queue`: `graph[prereq]` collects,
in map-iteration order, one copy of each validator name per occurrence of
`prereq` in that validator's prerequisite list
(`graph[prereq].push_back(name)` inside the double loop, lines 130-139). -/
def graph_deps (vs : Validators) (p : String) : List String :=
  vs.flatMap (fun v => v.2.prerequisites.filterMap (fun q => if q == p then some v.1 else none))

/-- The initial in-degree map: `indegree[name]` is incremented once per declared
prerequisite occurrence, so it starts at the length of the prerequisite list
(lines 130-139). -/
def init_indegree (vs : Validators) (n : String) : Int :=
  ((prereqsOf vs n).length : Int)

/-- The inner loop of the topological sort (lines 158-165): for each dependent
`neighbor` of the popped validator, decrement its in-degree and, exactly when
the decremented value reaches 0, push it onto the queue and erase it from the
set of unprocessed validators. -/
def process_neighbors (d : String → Int) (q : List String) (rem : Validators) :
    List String → (String → Int) × List String × Validators
  | [] => (d, q, rem)
  | n :: rest =>
    let dn := d n - 1
    let d' := fun m => if m = n then dn else d m
    if dn = 0 then
      process_neighbors d' (q ++ [n]) (rem.filter (fun v => v.1 ≠ n)) rest
    else
      process_neighbors d' q rem rest

/-- The `while (!q.empty())` loop of `create_validation_queue` (lines 151-166):
pop the front validator, append it to the execution queue, and process its
dependents.  The C++ loop needs no fuel; the `Nat` argument only bounds the
number of iterations, and `create_validation_queue` passes a bound that is
provably never exhausted (each validator is pushed at most once). -/
def kahn_loop (g : String → List String) :
    Nat → List String → (String → Int) → List String → Validators →
    List String × Validators
  | 0, _, _, out, rem => (out, rem)
  | _ + 1, [], _, out, rem => (out, rem)
  | fuel + 1, u :: qs, d, out, rem =>
    let s := process_neighbors d qs rem (g u)
    kahn_loop g fuel s.2.1 s.1 (out ++ [u]) s.2.2

/-- Sets `max_severity` of a validator entry to `ERROR` (lines 168-170). -/
def force_error (v : String × ValidatorInfo) : String × ValidatorInfo :=
  (v.1, { v.2 with max_severity := VSeverity.ERROR })

/-- Embeds `create_validation_queue` (lines 120-173): Kahn topological sort.  All
validators start in `remaining_validators`; those with in-degree 0 seed the
queue (and leave the remaining set); the loop drains the queue; finally every
validator still remaining has its `max_severity` forced to `ERROR`.  Returns
the execution queue and the remaining (unresolved) validators. -/
def create_validation_queue (vs : Validators) : List String × Validators :=
  let q0 := (vs.filter (fun v => v.2.prerequisites.isEmpty)).map Prod.fst
  let rem0 := vs.filter (fun v => ¬ v.2.prerequisites.isEmpty)
  let r := kahn_loop (graph_deps vs) (vs.length + 1) q0 (init_indegree vs) [] rem0
  (r.1, r.2.map force_error)

/-! ## JSON requirements document

The tool reads a requirements JSON of shape
`{"requirements": [{"id": ..., "validators": [{"name": ..., "passed": ..., "issues": [...]}]}]}`
and mutates it in place.  We embed the parts of the document the scheduler
touches; `passed` and `issues` are `Option`s because they are absent until the
scheduler writes them. -/

/-- One element of a validator's `issues` JSON array (severity and primitive
are stored as the strings produced by `lanelet::validation::toString`). -/
structure IssueJson where
  severity : String
  primitive : String
  id : Int
  message : String
deriving DecidableEq, Repr

/-- A validator block of the requirements JSON. -/
structure VJson where
  name : String
  passed : Option Bool
  issues : Option (List IssueJson)
deriving DecidableEq, Repr

/-- A requirement block of the requirements JSON. -/
structure RJson where
  rid : String
  validators : List VJson
  rpassed : Option Bool
deriving DecidableEq, Repr

/-- The whole requirements JSON document. -/
structure JsonData where
  requirements : List RJson
deriving DecidableEq, Repr

/-- Embeds `lanelet::validation::Issue`: severity, primitive kind (kept as the
`toString` string), id and message. -/
structure LIssue where
  severity : LSeverity
  primitive : String
  id : Int
  message : String
deriving DecidableEq, Repr

/-- Embeds `lanelet::validation::DetectedIssues`: a checker name with its issues. -/
structure DetectedIssues where
  checkName : String
  issues : List LIssue
deriving DecidableEq, Repr

/-- Embeds `lanelet::validation::toString(Primitive::Primitive)` (external constant). -/
def primitive_string : String := "primitive"

/-- Whether some requirement of the document contains a validator block named
`name` (the success condition of `find_validator_block`, lines 176-186). -/
def has_validator_block (jd : JsonData) (name : String) : Bool :=
  jd.requirements.any (fun r => r.validators.any (fun v => v.name == name))

/-- Applies `f` to the first validator block named `name` in a validator list. -/
def update_vjson_list (name : String) (f : VJson → VJson) : List VJson → List VJson
  | [] => []
  | v :: rest =>
    if v.name == name then f v :: rest
    else v :: update_vjson_list name f rest

/-- Applies `f` to the first requirement that contains a block named `name`. -/
def update_rjson_list (name : String) (f : VJson → VJson) : List RJson → List RJson
  | [] => []
  | r :: rest =>
    if r.validators.any (fun v => v.name == name) then
      { r with validators := update_vjson_list name f r.validators } :: rest
    else r :: update_rjson_list name f rest

/-- Embeds `find_validator_block` (lines 176-186) followed by a mutation through the
returned reference: rewrites the first validator block named `name` (every
caller then assigns `passed` / `issues` through the reference), or throws
`"Validator not found"` when no block carries that name. -/
def update_validator_block (jd : JsonData) (name : String) (f : VJson → VJson) :
    Except String JsonData :=
  if has_validator_block jd name then
    Except.ok { requirements := update_rjson_list name f jd.requirements }
  else
    Except.error "Validator not found"

/-- The fixed message attached to unresolvable validators (lines 203 and 211). -/
def unresolvable_message : String :=
  "Prerequisites don\x27t exist OR they are making a loop."

/-- The fixed message attached to blocked validators (lines 249 and 257). -/
def blocked_message : String := "Prerequisites didn\x27t pass"

/-- The JSON issue written for an unresolvable or blocked validator
(severity Error, primitive `Primitive`, id 0). -/
def synthetic_issue_json (msg : String) : IssueJson :=
  { severity := LSeverity.Error.asString, primitive := primitive_string,
    id := 0, message := msg }

/-- The in-memory issue recorded for an unresolvable or blocked validator
(severity Error, primitive `Primitive`, `lanelet::InvalId`). -/
def synthetic_issue (msg : String) : LIssue :=
  { severity := LSeverity.Error, primitive := primitive_string,
    id := 0, message := msg }

/-- The per-validator loop of `descript_unused_validators_to_json`
(lines 194-213): for every unresolved validator, find its JSON block (throwing
when absent), set `passed` to `false` and `issues` to the single synthetic
unresolvable issue, and collect one in-memory Error issue per unresolved
validator. -/
def descript_loop (jd : JsonData) (issues : List LIssue) :
    Validators → Except String (JsonData × List LIssue)
  | [] => Except.ok (jd, issues)
  | v :: rest =>
    match update_validator_block jd v.1 (fun blk =>
      { blk with passed := some false,
                 issues := some [synthetic_issue_json unresolvable_message] }) with
    | Except.error msg => Except.error msg
    | Except.ok jd' => descript_loop jd' (issues ++ [synthetic_issue unresolvable_message]) rest

/-- Embeds `descript_unused_validators_to_json`, the wrapper around `descript_loop`
packaging the collected issues under the checker name `invalid_prerequisites`
(lines 215-218), omitted when no validator was unresolved. -/
def descript_unused_validators_to_json (jd : JsonData) (unused : Validators) :
    Except String (JsonData × List DetectedIssues) :=
  match descript_loop jd [] unused with
  | Except.error msg => Except.error msg
  | Except.ok r =>
    if r.2.length > 0 then
      Except.ok (r.1, [{ checkName := "invalid_prerequisites", issues := r.2 }])
    else
      Except.ok (r.1, [])

/-- The prerequisite scan of `check_prerequisite_completion` (lines 230-239):
walk the prerequisite list in order and stop at the first prerequisite whose
recorded `max_severity` is `ERROR`, or is `WARNING` while the target's
forgive-warnings map holds `false` for it.  `validators.at(prereq)` and
`forgive_warnings.at(prereq)` throw `std::out_of_range` on absent keys; the
forgive lookup is only reached when the severity is `WARNING` (the `&&`
short-circuits). -/
def prereq_blocked (vs : Validators) (fw : List (String × Bool)) :
    List String → Except String Bool
  | [] => Except.ok false
  | p :: rest =>
    match vs.find? (fun v => v.1 == p) with
    | none => Except.error "std::out_of_range"
    | some pv =>
      if pv.2.max_severity = VSeverity.ERROR then Except.ok true
      else if pv.2.max_severity = VSeverity.WARNING then
        match fw.find? (fun e => e.1 == p) with
        | none => Except.error "std::out_of_range"
        | some e => if e.2 = false then Except.ok true else prereq_blocked vs fw rest
      else prereq_blocked vs fw rest

/-- Embeds `check_prerequisite_completion` (lines 221-266): look up the target
validator (`validators.at`, throws on absence) and its JSON block, scan its
prerequisites, and when blocked mark the block failed with the single
synthetic `"Prerequisites didn't pass"` issue, returning that issue under the
target's name; otherwise leave the document unchanged and return no issues. -/
def check_prerequisite_completion (jd : JsonData) (vs : Validators)
    (target : String) : Except String (JsonData × List DetectedIssues) :=
  match vs.find? (fun v => v.1 == target) with
  | none => Except.error "std::out_of_range"
  | some tv =>
    if ¬ has_validator_block jd target then
      Except.error "Validator not found"
    else
      match prereq_blocked vs tv.2.forgive_warnings tv.2.prerequisites with
      | Except.error msg => Except.error msg
      | Except.ok blocked =>
        if blocked then
          match update_validator_block jd target (fun blk =>
            { blk with passed := some false,
                       issues := some [synthetic_issue_json blocked_message] }) with
          | Except.error msg => Except.error msg
          | Except.ok jd' =>
            Except.ok (jd', [{ checkName := target, issues := [synthetic_issue blocked_message] }])
        else
          Except.ok (jd, [])

/-- Counts the warnings and errors of one validator block's `issues` array
(lines 283-296): a missing array contributes nothing; severities are compared
against the `toString` of `Warning` and `Error`. -/
def count_vjson_issues (v : VJson) : Nat × Nat :=
  match v.issues with
  | none => (0, 0)
  | some issues =>
    issues.foldl (fun acc i =>
      if i.severity == LSeverity.Warning.asString then (acc.1 + 1, acc.2)
      else if i.severity == LSeverity.Error.asString then (acc.1, acc.2 + 1)
      else acc) (0, 0)

/-- One requirement's pass of `summarize_validator_results` (lines 273-316):
reads every validator's `passed` flag (the JSON access throws when the field is
absent), ANDs them into the requirement's `passed`, and accumulates
warning/error counts. -/
def summarize_requirement_loop (acc : Bool) (w e : Nat) :
    List VJson → Except String (Bool × Nat × Nat)
  | [] => Except.ok (acc, w, e)
  | v :: rest =>
    match v.passed with
    | none => Except.error "json type error"
    | some b =>
      let c := count_vjson_issues v
      summarize_requirement_loop (acc && b) (w + c.1) (e + c.2) rest

/-- One requirement's summary: its `passed` field set to the AND of its
validators' `passed` flags, with the accumulated warning/error counts. -/
def summarize_requirement (r : RJson) : Except String (RJson × Nat × Nat) :=
  match summarize_requirement_loop true 0 0 r.validators with
  | Except.error msg => Except.error msg
  | Except.ok s => Except.ok ({ r with rpassed := some s.1 }, s.2)

/-- The requirement loop of `summarize_validator_results`. -/
def summarize_loop (rs : List RJson) (w e : Nat) :
    List RJson → Except String (List RJson × Nat × Nat)
  | [] => Except.ok (rs, w, e)
  | r :: rest =>
    match summarize_requirement r with
    | Except.error msg => Except.error msg
    | Except.ok s => summarize_loop (rs ++ [s.1]) (w + s.2.1) (e + s.2.2) rest

/-- Embeds `summarize_validator_results` (lines 268-333): processes every requirement
and returns the annotated document together with the total issue count
(`warning_count + error_count`). -/
def summarize_validator_results (jd : JsonData) : Except String (JsonData × Nat) :=
  match summarize_loop [] 0 0 jd.requirements with
  | Except.error msg => Except.error msg
  | Except.ok s => Except.ok ({ requirements := s.1 }, s.2.1 + s.2.2)

/-! ## Traffic-light facing classifier

From `validators/traffic_light/traffic_light_facing.cpp`.  Coordinates are
embedded as rationals.  The C++ cosine tests divide a dot product by the
product of Euclidean norms; only the comparisons against 0 are used, so we
embed the truth value of each comparison directly: with both norms nonzero the
quotient has the sign of the dot product, and with a zero norm the C++
quotient is IEEE NaN, for which both `< 0` and `> 0` are false. -/

/-- A 3D vector (`Eigen::Vector3d`) over exact rationals. -/
abbrev Vec3 := ℚ × ℚ × ℚ

/-- Euclidean dot product. -/
def dot3 (a b : Vec3) : ℚ := a.1 * b.1 + a.2.1 * b.2.1 + a.2.2 * b.2.2

/-- Squared Euclidean norm (zero exactly for the zero vector). -/
def normSq (a : Vec3) : ℚ := dot3 a a

/-- Truth value of `dot(a,b) / (a.norm() * b.norm()) < 0` under IEEE semantics
(lines 182-184): false whenever either vector is zero-length (NaN compare). -/
def cosine_lt_zero (a b : Vec3) : Bool :=
  decide (normSq a ≠ 0) && decide (normSq b ≠ 0) && decide (dot3 a b < 0)

/-- Truth value of `dot(a,b) / (a.norm() * b.norm()) > 0` under IEEE semantics
(lines 193-195): false whenever either vector is zero-length (NaN compare). -/
def cosine_gt_zero (a b : Vec3) : Bool :=
  decide (normSq a ≠ 0) && decide (normSq b ≠ 0) && decide (dot3 a b > 0)

/-- The per-regulatory-element judgment step (lines 193-199): when the cosine
between the pseudo stop line and the traffic-light linestring is positive the
light's correct flag is set, otherwise (including the NaN case of degenerate
vectors) its wrong flag is set.  Returns (correct-flag-written,
wrong-flag-written). -/
def facing_judgement (pseudo_stop_line traffic_light : Vec3) : Bool × Bool :=
  if cosine_gt_zero pseudo_stop_line traffic_light then (true, false) else (false, true)

/-- A `lanelet::LineString3d`: an id and an ordered point list. -/
structure LineString3dM where
  lsid : Int
  points : List Vec3
deriving DecidableEq, Repr

/-- Modelled from the spec: `linestring_to_vector3d` is declared in
`lib/utils.hpp`, whose implementation file is not under `src/`; §4.2 step 3b
describes a linestring's direction vector as "(light linestring end − start)",
so the function maps a linestring to `back − front`. -/
def linestring_to_vector3d (ls : LineString3dM) : Vec3 :=
  let fp := ls.points.headD (0, 0, 0)
  let lp := ls.points.getLastD (0, 0, 0)
  (lp.1 - fp.1, lp.2.1 - fp.2.1, lp.2.2 - fp.2.2)

/-- A `lanelet::Point2d` value (id and 2D coordinates). -/
structure Point2dM where
  pid : Int
  x : ℚ
  y : ℚ
deriving DecidableEq, Repr

/-- Embeds `get_linestring_midpoint_2d` from `lib/utils.cpp` (lines 28-44): throws a
descriptive runtime error naming the linestring id when it has fewer than two
points, and otherwise returns the arithmetic mean of the first and last point
coordinates with dummy id 0. -/
def get_linestring_midpoint_2d (ls : LineString3dM) : Except String Point2dM :=
  if ls.points.length < 2 then
    Except.error ("LineString with ID " ++ toString ls.lsid ++
      " must have at least two points to calculate the midpoint.")
  else
    let fp := ls.points.headD (0, 0, 0)
    let lp := ls.points.getLastD (0, 0, 0)
    Except.ok { pid := 0, x := (fp.1 + lp.1) / 2, y := (fp.2.1 + lp.2.1) / 2 }

/-- Embeds `lanelet::validation::toString(Primitive::LineString)` (external constant). -/
def linestring_primitive : String := "linestring"

/-- Issue message for a traffic light never referenced (lines 220-222). -/
def no_reg_elem_message : String :=
  "Refers of traffic light regulatory element must have type of traffic_light."

/-- Issue message for a wrong-facing traffic light (lines 223-226). -/
def wrong_direction_message : String := "The linestring direction seems to be wrong."

/-- Issue message for an ambiguous traffic light (lines 227-231). -/
def ambiguous_direction_message : String :=
  "The linestring direction has been judged as both correct and wrong."

/-- The terminal decode of the two per-id judgment flags (lines 219-231):
neither flag ⇒ one Error (no referencing regulatory element), only the wrong
flag ⇒ one Error (wrong facing), both flags ⇒ one Warning (ambiguous), only
the correct flag ⇒ nothing. -/
def decode_tl_flags (id : Int) (correct wrong : Bool) : List LIssue :=
  if ¬ correct ∧ ¬ wrong then
    [{ severity := LSeverity.Error, primitive := linestring_primitive,
       id := id, message := no_reg_elem_message }]
  else if ¬ correct ∧ wrong then
    [{ severity := LSeverity.Error, primitive := linestring_primitive,
       id := id, message := wrong_direction_message }]
  else if correct ∧ wrong then
    [{ severity := LSeverity.Warning, primitive := linestring_primitive,
       id := id, message := ambiguous_direction_message }]
  else []

/-- The final loop of `check_traffic_light_facing` (lines 216-232): walk the
entries of `tl_has_been_judged_as_correct` (a `std::map`, so one entry per
seeded id) and decode each id's two flags; the `std::map` `operator[]` read of
the wrong-flag map yields the stored flag, or `false` for an absent key. -/
def synthesize_facing_issues (correct_flags wrong_flags : List (Int × Bool)) :
    List LIssue :=
  correct_flags.flatMap (fun e =>
    decode_tl_flags e.1 e.2
      (((wrong_flags.find? (fun x => x.1 == e.1)).map Prod.snd).getD false))

/-- All validator blocks of the document in `find_validator_block`'s search
order (requirement by requirement, block by block). -/
def blocks (jd : JsonData) : List VJson :=
  jd.requirements.flatMap (fun r => r.validators)

/-- The block `find_validator_block` (lines 176-186) returns: the first
validator block carrying `name`. -/
def get_validator_block (jd : JsonData) (name : String) : Option VJson :=
  (blocks jd).find? (fun v => v.name == name)

/-- The per-prerequisite blocking test of lines 232-235, read off under the
assumption that the two `at()` lookups succeed: prerequisite `p` blocks the
target when its recorded `max_severity` is `ERROR`, or is `WARNING` while the
target's forgive-warnings entry for `p` reads `false`. -/
def blocking_prereqB (vs : Validators) (fw : List (String × Bool)) (p : String) : Bool :=
  match vs.find? (fun v => v.1 == p) with
  | none => false
  | some pv =>
    pv.2.max_severity == VSeverity.ERROR ||
      (pv.2.max_severity == VSeverity.WARNING &&
        !(((fw.find? (fun e => e.1 == p)).map Prod.snd).getD false))

/-- Embeds `new_process_requirements` (lines 356-358): the geometric check of a
queued validator is invoked exactly when `check_prerequisite_completion`
returned no issues. -/
def validator_executes (r : JsonData × List DetectedIssues) : Bool :=
  r.2.isEmpty

/-- The exit code of `new_process_requirements` (line 405):
`(num_issues == 0) ? 0 : 1`. -/
def new_process_requirements_exit (num_issues : Nat) : Int :=
  if num_issues = 0 then 0 else 1

/-- The exit code of `main`'s single-pass branch (line 545):
`static_cast<int>(issues.empty())`, i.e. 1 when the issue vector is empty and
0 when it is not. -/
def main_single_pass_exit (issues : List DetectedIssues) : Int :=
  if issues.isEmpty then 1 else 0

/-- The marking `descript_unused_validators_to_json` applies to each
unresolved validator's JSON block. -/
def unresolved_marking (blk : VJson) : VJson :=
  { blk with passed := some false,
             issues := some [synthetic_issue_json unresolvable_message] }

/-- The marking `check_prerequisite_completion` applies to a blocked
validator's JSON block. -/
def blocked_marking (blk : VJson) : VJson :=
  { blk with passed := some false,
             issues := some [synthetic_issue_json blocked_message] }

/-- A one-requirement document holding two unannotated validator blocks. -/
def two_block_doc (n1 n2 : String) : JsonData :=
  { requirements := [{ rid := "req", validators := [⟨n1, none, none⟩, ⟨n2, none, none⟩], rpassed := none }] }

/-- A one-requirement document holding three unannotated validator blocks. -/
def three_block_doc (n1 n2 n3 : String) : JsonData :=
  { requirements := [{ rid := "req", validators := [⟨n1, none, none⟩, ⟨n2, none, none⟩, ⟨n3, none, none⟩], rpassed := none }] }

/-- The number of prerequisite occurrences of `n` whose prerequisite has not
yet been popped into `out` — the value `indegree[n]` holds throughout the
loop. -/
def deg_out (vs : Validators) (out : List String) (n : String) : Int :=
  (((prereqsOf vs n).filter (fun p => decide (p ∉ out))).length : Int)

/-! ## Theorems -/

/-- C9: for every linestring with at least two points,
`get_linestring_midpoint_2d` returns the arithmetic mean of the first and last
point's x and y coordinates (with dummy id 0); for fewer than two points it
raises a descriptive runtime error naming the linestring's id; and it raises
in no other case. -/
theorem C9_midpoint_mean_or_error (ls : LineString3dM) :
    (∀ fp lp, ls.points.head? = some fp → ls.points.getLast? = some lp →
      2 ≤ ls.points.length →
      get_linestring_midpoint_2d ls =
        Except.ok { pid := 0, x := (fp.1 + lp.1) / 2, y := (fp.2.1 + lp.2.1) / 2 }) ∧
    (ls.points.length < 2 →
      get_linestring_midpoint_2d ls =
        Except.error ("LineString with ID " ++ toString ls.lsid ++
          " must have at least two points to calculate the midpoint.")) ∧
    (∀ e, get_linestring_midpoint_2d ls = Except.error e → ls.points.length < 2) := by
  refine ⟨?_, ?_, ?_⟩
  · intro fp lp hf hl h2
    have hlt : ¬ ls.points.length < 2 := by omega
    have hfd : ls.points.headD (0, 0, 0) = fp := by
      rw [List.headD_eq_head?, hf]
      rfl
    have hld : ls.points.getLastD (0, 0, 0) = lp := by
      rw [List.getLastD_eq_getLast?, hl]
      rfl
    simp only [get_linestring_midpoint_2d, if_neg hlt, hfd, hld]
  · intro h
    simp only [get_linestring_midpoint_2d, if_pos h]
  · intro e he
    by_contra hge
    simp only [get_linestring_midpoint_2d, if_neg hge] at he
    exact Except.noConfusion he

/-- Witness for C9 at a two-point linestring (id 7) and a one-point
linestring (id 5). -/
theorem C9_midpoint_mean_or_error_witness :
    get_linestring_midpoint_2d ⟨7, [(0, 0, 0), (2, 4, 6)]⟩ =
      Except.ok { pid := 0, x := 1, y := 2 } ∧
    get_linestring_midpoint_2d ⟨5, [(1, 1, 1)]⟩ =
      Except.error ("LineString with ID " ++ toString (5 : Int) ++
        " must have at least two points to calculate the midpoint.") := by
  constructor
  · have h := (C9_midpoint_mean_or_error ⟨7, [(0, 0, 0), (2, 4, 6)]⟩).1
      (0, 0, 0) (2, 4, 6) rfl rfl (by decide)
    rw [h]
    norm_num
  · exact (C9_midpoint_mean_or_error ⟨5, [(1, 1, 1)]⟩).2.1 (by decide)

/-- C5 (code evaluation): in the single-pass mode (`main`, line 545) the exit
code is `static_cast<int>(issues.empty())`, so a run with zero recorded issues
exits with code 1 and a run with issues exits with code 0 — the opposite of
the claimed convention — while the scheduled mode (`new_process_requirements`,
line 405) exits 0 exactly on zero issues. -/
theorem C5_single_pass_exit_inverted :
    main_single_pass_exit [] = 1 ∧
    main_single_pass_exit [{ checkName := "x", issues := [] }] = 0 ∧
    new_process_requirements_exit 0 = 0 ∧
    new_process_requirements_exit 3 = 1 := by
  refine ⟨rfl, rfl, rfl, rfl⟩

/-- C6 (code evaluation): a degenerate linestring (coincident endpoints) gives
the zero direction vector; the facing classification at a zero-length pseudo
stop line does not fail loudly — the NaN cosine comparison is false, so the
light is silently recorded as judged wrong, which the terminal decode turns
into the ordinary wrong-facing Error issue. -/
theorem C6_degenerate_vector_silently_judged_wrong :
    linestring_to_vector3d ⟨21, [(3, 4, 5), (3, 4, 5)]⟩ = (0, 0, 0) ∧
    facing_judgement (0, 0, 0) (0, 1, 0) = (false, true) ∧
    decode_tl_flags 21 false true =
      [{ severity := LSeverity.Error, primitive := linestring_primitive,
         id := 21, message := wrong_direction_message }] := by
  refine ⟨?_, ?_, ?_⟩
  · simp [linestring_to_vector3d]
  · simp [facing_judgement, cosine_gt_zero, normSq, dot3]
  · rfl

lemma decode_tl_flags_ids (id : Int) (c w : Bool) :
    ∀ i ∈ decode_tl_flags id c w, i.id = id := by
  cases c <;> cases w <;> simp [decode_tl_flags]

lemma synthesize_ids (cm wm : List (Int × Bool)) :
    ∀ i ∈ synthesize_facing_issues cm wm, i.id ∈ cm.map Prod.fst := by
  intro i hi
  rcases List.mem_flatMap.mp hi with ⟨e, he, hie⟩
  have := decode_tl_flags_ids e.1 e.2 _ i hie
  rw [this]
  exact List.mem_map.mpr ⟨e, he, rfl⟩

lemma synthesize_filter_eq_decode (cm wm : List (Int × Bool)) (id : Int) (c : Bool)
    (hnd : (cm.map Prod.fst).Nodup) (hc : (id, c) ∈ cm) :
    (synthesize_facing_issues cm wm).filter (fun i => i.id == id) =
      decode_tl_flags id c (((wm.find? (fun x => x.1 == id)).map Prod.snd).getD false) := by
  induction cm with
  | nil => cases hc
  | cons e t ih =>
    have hnd' : (t.map Prod.fst).Nodup := (List.nodup_cons.mp hnd).2
    have hhead : e.1 ∉ t.map Prod.fst := (List.nodup_cons.mp hnd).1
    rw [synthesize_facing_issues] at *
    rw [List.flatMap_cons, List.filter_append]
    by_cases hid : e.1 = id
    · have hec : e = (id, c) := by
        rcases List.mem_cons.mp hc with hc1 | hc1
        · exact hc1.symm
        · exact absurd (hid ▸ List.mem_map.mpr ⟨(id, c), hc1, rfl⟩) hhead
      subst hec
      have h1 : (decode_tl_flags (id, c).1 (id, c).2
          (((wm.find? (fun x => x.1 == (id, c).1)).map Prod.snd).getD false)).filter
            (fun i => i.id == id) =
          decode_tl_flags id c (((wm.find? (fun x => x.1 == id)).map Prod.snd).getD false) := by
        apply List.filter_eq_self.mpr
        intro i hi
        have := decode_tl_flags_ids id c _ i hi
        simp [this]
      have h2 : (t.flatMap (fun e =>
          decode_tl_flags e.1 e.2
            (((wm.find? (fun x => x.1 == e.1)).map Prod.snd).getD false))).filter
            (fun i => i.id == id) = [] := by
        apply List.filter_eq_nil_iff.mpr
        intro i hi
        have hidm := synthesize_ids t wm i hi
        simp only [beq_iff_eq]
        intro hcontra
        exact hhead (by rw [hid]; exact hcontra ▸ hidm)
      rw [h1, h2, List.append_nil]
    · have hc' : (id, c) ∈ t := by
        rcases List.mem_cons.mp hc with hc1 | hc1
        · exact absurd (congrArg Prod.fst hc1.symm) hid
        · exact hc1
      have h1 : (decode_tl_flags e.1 e.2
          (((wm.find? (fun x => x.1 == e.1)).map Prod.snd).getD false)).filter
            (fun i => i.id == id) = [] := by
        apply List.filter_eq_nil_iff.mpr
        intro i hi
        have := decode_tl_flags_ids e.1 e.2 _ i hi
        simp [this, hid]
      rw [h1, List.nil_append]
      exact ih hnd' hc'

/-- C7: for every traffic-light id seeded into the two judgment maps, the
terminal loop synthesizes exactly one outcome from the two flags: neither flag
set yields one Error issue, only the wrong flag yields the one wrong-facing
Error issue, both flags yield the one ambiguous Warning issue, and only the
correct flag yields no issue for that id. -/
theorem C7_terminal_flag_decode (cm wm : List (Int × Bool)) (id : Int) (c w : Bool)
    (hnd : (cm.map Prod.fst).Nodup) (hc : (id, c) ∈ cm)
    (hw : ((wm.find? (fun x => x.1 == id)).map Prod.snd).getD false = w) :
    ((c = false ∧ w = false) →
      (synthesize_facing_issues cm wm).filter (fun i => i.id == id) =
        [{ severity := LSeverity.Error, primitive := linestring_primitive,
           id := id, message := no_reg_elem_message }]) ∧
    ((c = false ∧ w = true) →
      (synthesize_facing_issues cm wm).filter (fun i => i.id == id) =
        [{ severity := LSeverity.Error, primitive := linestring_primitive,
           id := id, message := wrong_direction_message }]) ∧
    ((c = true ∧ w = true) →
      (synthesize_facing_issues cm wm).filter (fun i => i.id == id) =
        [{ severity := LSeverity.Warning, primitive := linestring_primitive,
           id := id, message := ambiguous_direction_message }]) ∧
    ((c = true ∧ w = false) →
      (synthesize_facing_issues cm wm).filter (fun i => i.id == id) = []) := by
  have key := synthesize_filter_eq_decode cm wm id c hnd hc
  rw [hw] at key
  refine ⟨?_, ?_, ?_, ?_⟩ <;> rintro ⟨hc1, hw1⟩ <;> subst hc1 <;> subst hw1 <;>
    rw [key] <;> rfl

/-- Witness for C7 at four seeded ids covering the four flag combinations. -/
theorem C7_terminal_flag_decode_witness :
    (synthesize_facing_issues [(1, false), (2, false), (3, true), (4, true)]
        [(1, false), (2, true), (3, true), (4, false)]).filter (fun i => i.id == 2) =
      [{ severity := LSeverity.Error, primitive := linestring_primitive,
         id := 2, message := wrong_direction_message }] := by
  exact (C7_terminal_flag_decode [(1, false), (2, false), (3, true), (4, true)]
    [(1, false), (2, true), (3, true), (4, false)] 2 false true
    (by decide) (by decide) (by decide)).2.1 ⟨rfl, rfl⟩

lemma summarize_requirement_loop_ok :
    ∀ (l : List VJson) (acc : Bool) (w e : Nat), (∀ v ∈ l, v.passed ≠ none) →
    ∃ w' e', summarize_requirement_loop acc w e l =
      Except.ok (acc && l.all (fun v => v.passed == some true), w', e') := by
  intro l
  induction l with
  | nil =>
    intro acc w e _
    exact ⟨w, e, by simp [summarize_requirement_loop]⟩
  | cons v rest ih =>
    intro acc w e hall
    obtain ⟨b, hb⟩ : ∃ b, v.passed = some b := by
      cases hv : v.passed with
      | none => exact absurd hv (hall v (List.mem_cons_self v rest))
      | some b => exact ⟨b, rfl⟩
    have hrest : ∀ x ∈ rest, x.passed ≠ none := fun x hx =>
      hall x (List.mem_cons_of_mem v hx)
    obtain ⟨w', e', hloop⟩ := ih (acc && b)
      (w + (count_vjson_issues v).1) (e + (count_vjson_issues v).2) hrest
    refine ⟨w', e', ?_⟩
    rw [summarize_requirement_loop, hb]
    show summarize_requirement_loop (acc && b) (w + (count_vjson_issues v).1)
      (e + (count_vjson_issues v).2) rest = _
    have hbeq : b = (v.passed == some true) := by
      rw [hb]
      cases b <;> rfl
    rw [hloop, List.all_cons, ← hbeq, Bool.and_assoc]

lemma summarize_requirement_ok (r : RJson) (h : ∀ v ∈ r.validators, v.passed ≠ none) :
    ∃ w e, summarize_requirement r =
      Except.ok ({ r with rpassed := some (r.validators.all (fun v => v.passed == some true)) }, w, e) := by
  obtain ⟨w, e, hloop⟩ := summarize_requirement_loop_ok r.validators true 0 0 h
  refine ⟨w, e, ?_⟩
  rw [summarize_requirement, hloop]
  simp

lemma summarize_loop_ok :
    ∀ (l : List RJson) (rs : List RJson) (w e : Nat),
    (∀ r ∈ l, ∀ v ∈ r.validators, v.passed ≠ none) →
    ∃ w' e', summarize_loop rs w e l = Except.ok (rs ++ l.map (fun r => { r with rpassed := some (r.validators.all (fun v => v.passed == some true)) }), w', e') := by
  intro l
  induction l with
  | nil =>
    intro rs w e _
    exact ⟨w, e, by simp [summarize_loop]⟩
  | cons r rest ih =>
    intro rs w e hall
    obtain ⟨wr, er, hr⟩ := summarize_requirement_ok r
      (hall r (List.mem_cons_self r rest))
    obtain ⟨w', e', hloop⟩ := ih
      (rs ++ [{ r with rpassed := some (r.validators.all (fun v => v.passed == some true)) }])
      (w + wr) (e + er) (fun x hx => hall x (List.mem_cons_of_mem r hx))
    refine ⟨w', e', ?_⟩
    rw [summarize_loop, hr]
    show summarize_loop (rs ++ [_]) (w + wr) (e + er) rest = _
    rw [hloop, List.map_cons, List.append_assoc]
    rfl

/-- C8: for every requirements document whose validator blocks all carry a
`passed` flag (as is the case after all validators have been attempted),
`summarize_validator_results` computes each requirement's `passed` as the
logical AND of its member validators' `passed` flags — a requirement with at
least one failed validator reports failed, a requirement whose validators all
passed reports passed — and the flags themselves are left unchanged. -/
theorem C8_requirement_pass_is_and (jd : JsonData)
    (hall : ∀ r ∈ jd.requirements, ∀ v ∈ r.validators, v.passed ≠ none) :
    ∃ total, summarize_validator_results jd =
      Except.ok ({ requirements := jd.requirements.map (fun r => { r with rpassed := some (r.validators.all (fun v => v.passed == some true)) }) }, total) := by
  obtain ⟨w, e, hloop⟩ := summarize_loop_ok jd.requirements [] 0 0 hall
  refine ⟨w + e, ?_⟩
  rw [summarize_validator_results, hloop]
  simp

/-- Witness for C8: one requirement with a failed validator among three
reports failed; one whose two validators passed reports passed. -/
theorem C8_requirement_pass_is_and_witness :
    ∃ total, summarize_validator_results
      { requirements :=
        [ { rid := "r1",
            validators := [⟨"a", some true, none⟩, ⟨"b", some false, none⟩,
                           ⟨"c", some true, none⟩],
            rpassed := none },
          { rid := "r2",
            validators := [⟨"d", some true, none⟩, ⟨"e", some true, none⟩],
            rpassed := none } ] } =
      Except.ok ({ requirements :=
        [ { rid := "r1",
            validators := [⟨"a", some true, none⟩, ⟨"b", some false, none⟩,
                           ⟨"c", some true, none⟩],
            rpassed := some false },
          { rid := "r2",
            validators := [⟨"d", some true, none⟩, ⟨"e", some true, none⟩],
            rpassed := some true } ] }, total) := by
  have h := C8_requirement_pass_is_and
    { requirements :=
      [ { rid := "r1",
          validators := [⟨"a", some true, none⟩, ⟨"b", some false, none⟩,
                         ⟨"c", some true, none⟩],
          rpassed := none },
        { rid := "r2",
          validators := [⟨"d", some true, none⟩, ⟨"e", some true, none⟩],
          rpassed := none } ] } (by decide)
  simpa using h

/-! ### Lemmas about validator-block updates -/

lemma any_flatMap_validators (rs : List RJson) (p : VJson → Bool) :
    (rs.flatMap (fun r => r.validators)).any p = rs.any (fun r => r.validators.any p) := by
  induction rs with
  | nil => rfl
  | cons r rest ih => rw [List.flatMap_cons, List.any_append, ih, List.any_cons]

lemma has_validator_block_eq_any (jd : JsonData) (name : String) :
    has_validator_block jd name = (blocks jd).any (fun v => v.name == name) := by
  rw [has_validator_block, blocks, any_flatMap_validators]

lemma update_vjson_list_append (name : String) (f : VJson → VJson) (a b : List VJson) :
    update_vjson_list name f (a ++ b) =
      if a.any (fun v => v.name == name) then update_vjson_list name f a ++ b
      else a ++ update_vjson_list name f b := by
  induction a with
  | nil => simp [update_vjson_list]
  | cons v rest ih =>
    by_cases hv : (v.name == name) = true
    · simp [update_vjson_list, hv]
    · have h1 : update_vjson_list name f (v :: rest ++ b) =
          v :: update_vjson_list name f (rest ++ b) := by
        rw [List.cons_append, update_vjson_list, if_neg hv]
      rw [h1, ih, List.any_cons]
      cases hr : rest.any (fun v => v.name == name) <;>
        simp [update_vjson_list, hv, hr]

lemma update_vjson_list_find_self (name : String) (f : VJson → VJson)
    (hf : ∀ v, (f v).name = v.name) (l : List VJson) :
    (update_vjson_list name f l).find? (fun v => v.name == name) =
      (l.find? (fun v => v.name == name)).map f := by
  induction l with
  | nil => rfl
  | cons v rest ih =>
    by_cases hv : (v.name == name) = true
    · have hfv : ((f v).name == name) = true := by rw [hf]; exact hv
      rw [update_vjson_list, if_pos hv]
      simp [hv, hfv]
    · rw [update_vjson_list, if_neg hv]
      simp [hv, ih]

lemma update_vjson_list_find_other (name n : String) (f : VJson → VJson)
    (hf : ∀ v, (f v).name = v.name) (hne : n ≠ name) (l : List VJson) :
    (update_vjson_list name f l).find? (fun v => v.name == n) =
      l.find? (fun v => v.name == n) := by
  induction l with
  | nil => rfl
  | cons v rest ih =>
    by_cases hv : (v.name == name) = true
    · have hvname : v.name = name := by simpa using hv
      have hvn : (v.name == n) = false := by
        rw [hvname]
        exact beq_eq_false_iff_ne.mpr (Ne.symm hne)
      have hfvn : ((f v).name == n) = false := by rw [hf]; exact hvn
      rw [update_vjson_list, if_pos hv]
      simp [hvn, hfvn]
    · rw [update_vjson_list, if_neg hv]
      by_cases hvn : (v.name == n) = true <;> simp [hvn, ih]

lemma update_vjson_list_any (name n : String) (f : VJson → VJson)
    (hf : ∀ v, (f v).name = v.name) (l : List VJson) :
    (update_vjson_list name f l).any (fun v => v.name == n) =
      l.any (fun v => v.name == n) := by
  induction l with
  | nil => rfl
  | cons v rest ih =>
    by_cases hv : v.name == name
    · rw [update_vjson_list, if_pos hv, List.any_cons, List.any_cons, hf]
    · rw [update_vjson_list, if_neg hv, List.any_cons, List.any_cons, ih]

lemma blocks_update_rjson (name : String) (f : VJson → VJson) (rs : List RJson) :
    (update_rjson_list name f rs).flatMap (fun r => r.validators) =
      update_vjson_list name f (rs.flatMap (fun r => r.validators)) := by
  induction rs with
  | nil => rfl
  | cons r rest ih =>
    by_cases hr : r.validators.any (fun v => v.name == name)
    · rw [update_rjson_list, if_pos hr, List.flatMap_cons, List.flatMap_cons,
        update_vjson_list_append, if_pos hr]
    · rw [update_rjson_list, if_neg hr, List.flatMap_cons, List.flatMap_cons,
        update_vjson_list_append, if_neg hr, ih]

lemma update_validator_block_ok (jd : JsonData) (name : String) (f : VJson → VJson)
    (h : has_validator_block jd name = true) :
    update_validator_block jd name f =
      Except.ok { requirements := update_rjson_list name f jd.requirements } := by
  rw [update_validator_block, if_pos h]

lemma blocks_of_update (jd : JsonData) (name : String) (f : VJson → VJson) :
    blocks { requirements := update_rjson_list name f jd.requirements } =
      update_vjson_list name f (blocks jd) :=
  blocks_update_rjson name f jd.requirements

lemma has_validator_block_update (jd : JsonData) (name n : String) (f : VJson → VJson)
    (hf : ∀ v, (f v).name = v.name) :
    has_validator_block { requirements := update_rjson_list name f jd.requirements } n =
      has_validator_block jd n := by
  rw [has_validator_block_eq_any, has_validator_block_eq_any, blocks_of_update,
    update_vjson_list_any name n f hf]

lemma get_validator_block_update_self (jd : JsonData) (name : String) (f : VJson → VJson)
    (hf : ∀ v, (f v).name = v.name) :
    get_validator_block { requirements := update_rjson_list name f jd.requirements } name =
      (get_validator_block jd name).map f := by
  rw [get_validator_block, get_validator_block, blocks_of_update,
    update_vjson_list_find_self name f hf]

lemma get_validator_block_update_other (jd : JsonData) (name n : String) (f : VJson → VJson)
    (hf : ∀ v, (f v).name = v.name) (hne : n ≠ name) :
    get_validator_block { requirements := update_rjson_list name f jd.requirements } n =
      get_validator_block jd n := by
  rw [get_validator_block, get_validator_block, blocks_of_update,
    update_vjson_list_find_other name n f hf hne]

lemma get_validator_block_isSome (jd : JsonData) (name : String)
    (h : has_validator_block jd name = true) :
    ∃ blk, get_validator_block jd name = some blk := by
  rw [has_validator_block_eq_any] at h
  rw [get_validator_block]
  cases hfind : (blocks jd).find? (fun v => v.name == name) with
  | none =>
    rw [List.find?_eq_none] at hfind
    rcases List.any_eq_true.mp h with ⟨v, hv, hp⟩
    exact absurd hp (by simpa using hfind v hv)
  | some blk => exact ⟨blk, rfl⟩

lemma descript_loop_spec :
    ∀ (unused : Validators) (jd : JsonData) (issues : List LIssue),
    (∀ v ∈ unused, has_validator_block jd v.1 = true) →
    ∃ jd', descript_loop jd issues unused =
        Except.ok (jd', issues ++
          List.replicate unused.length (synthetic_issue unresolvable_message)) ∧
      (∀ n ∈ keys unused, ∃ blk, get_validator_block jd' n = some blk ∧
        blk.passed = some false ∧
        blk.issues = some [synthetic_issue_json unresolvable_message]) ∧
      (∀ n, n ∉ keys unused → get_validator_block jd' n = get_validator_block jd n) ∧
      (∀ n, has_validator_block jd' n = has_validator_block jd n) := by
  intro unused
  induction unused with
  | nil =>
    intro jd issues _
    exact ⟨jd, by simp [descript_loop], by simp [keys], fun n _ => rfl, fun n => rfl⟩
  | cons v rest ih =>
    intro jd issues hpres
    have hf : ∀ b, (unresolved_marking b).name = b.name := fun b => rfl
    have hhead := hpres v (List.mem_cons_self v rest)
    have hupd := update_validator_block_ok jd v.1 unresolved_marking hhead
    have hpres1 : ∀ x ∈ rest,
        has_validator_block
          { requirements := update_rjson_list v.1 unresolved_marking jd.requirements }
          x.1 = true := fun x hx => by
      rw [has_validator_block_update jd v.1 x.1 unresolved_marking hf]
      exact hpres x (List.mem_cons_of_mem v hx)
    obtain ⟨jd', hrun, hmark, hother, hhas⟩ := ih
      { requirements := update_rjson_list v.1 unresolved_marking jd.requirements }
      (issues ++ [synthetic_issue unresolvable_message]) hpres1
    have hstep : descript_loop jd issues (v :: rest) =
        descript_loop
          { requirements := update_rjson_list v.1 unresolved_marking jd.requirements }
          (issues ++ [synthetic_issue unresolvable_message]) rest := by
      rw [descript_loop]
      rw [show update_validator_block jd v.1 (fun blk =>
        { blk with passed := some false,
                   issues := some [synthetic_issue_json unresolvable_message] }) =
          Except.ok { requirements := update_rjson_list v.1 unresolved_marking jd.requirements }
        from hupd]
    have hget1 : get_validator_block
        { requirements := update_rjson_list v.1 unresolved_marking jd.requirements } v.1 =
        (get_validator_block jd v.1).map unresolved_marking :=
      get_validator_block_update_self jd v.1 unresolved_marking hf
    refine ⟨jd', ?_, ?_, ?_, ?_⟩
    · rw [hstep, hrun, List.length_cons, List.replicate_succ, List.append_assoc]
      rfl
    · intro n hn
      rcases List.mem_cons.mp (show n ∈ v.1 :: keys rest from hn) with hn1 | hn1
      · by_cases hmem : n ∈ keys rest
        · exact hmark n hmem
        · obtain ⟨blk0, hblk0⟩ := get_validator_block_isSome jd v.1 hhead
          refine ⟨unresolved_marking blk0, ?_, rfl, rfl⟩
          rw [hother n hmem, hn1, hget1, hblk0]
          rfl
      · exact hmark n hn1
    · intro n hn
      have hn' : n ∉ v.1 :: keys rest := hn
      have hnv : n ≠ v.1 := fun h => hn' (h ▸ List.mem_cons_self _ _)
      have hnr : n ∉ keys rest := fun h => hn' (List.mem_cons_of_mem _ h)
      rw [hother n hnr]
      exact get_validator_block_update_other jd v.1 n unresolved_marking hf hnv
    · intro n
      rw [hhas n]
      exact has_validator_block_update jd v.1 n unresolved_marking hf

/-- The no-throw characterization of the prerequisite scan: when every
prerequisite is a key of the validator map and every `WARNING`-severity
prerequisite has an explicit forgive-warnings entry, the scan completes
without throwing and reports whether any prerequisite blocks. -/
lemma prereq_blocked_ok (vs : Validators) (fw : List (String × Bool)) :
    ∀ l : List String,
    (∀ p ∈ l, ∃ pv, vs.find? (fun v => v.1 == p) = some pv ∧
      (pv.2.max_severity = VSeverity.WARNING →
        (fw.find? (fun e => e.1 == p)).isSome)) →
    prereq_blocked vs fw l = Except.ok (l.any (blocking_prereqB vs fw)) := by
  intro l
  induction l with
  | nil => intro _; rfl
  | cons p rest ih =>
    intro hsafe
    obtain ⟨pv, hpv, hwarn⟩ := hsafe p (List.mem_cons_self p rest)
    have hrest := fun x hx => hsafe x (List.mem_cons_of_mem p hx)
    simp only [prereq_blocked, hpv, List.any_cons]
    by_cases herr : pv.2.max_severity = VSeverity.ERROR
    · rw [if_pos herr]
      have hb : blocking_prereqB vs fw p = true := by
        simp only [blocking_prereqB, hpv]
        simp [herr]
      rw [hb]
      rfl
    · rw [if_neg herr]
      by_cases hw : pv.2.max_severity = VSeverity.WARNING
      · rw [if_pos hw]
        obtain ⟨e, he⟩ := Option.isSome_iff_exists.mp (hwarn hw)
        simp only [he]
        have h1 : (pv.2.max_severity == VSeverity.ERROR) = false := by simpa using herr
        have h2 : (pv.2.max_severity == VSeverity.WARNING) = true := by simpa using hw
        have hblock : blocking_prereqB vs fw p = !e.2 := by
          simp only [blocking_prereqB, hpv, he]
          simp [h1, h2]
        by_cases he2 : e.2 = false
        · rw [if_pos he2, hblock, he2]
          rfl
        · have he2t : e.2 = true := eq_true_of_ne_false he2
          rw [if_neg he2, ih hrest, hblock, he2t]
          rfl
      · rw [if_neg hw, ih hrest]
        have hb : blocking_prereqB vs fw p = false := by
          simp only [blocking_prereqB, hpv]
          have h1 : (pv.2.max_severity == VSeverity.ERROR) = false := by simpa using herr
          have h2 : (pv.2.max_severity == VSeverity.WARNING) = false := by simpa using hw
          simp [h1, h2]
        rw [hb]
        rfl

/-- C3 (amended): for a validator in the execution order whose
Warning-severity prerequisites all carry an explicit forgive-warnings entry
(so the `forgive_warnings.at` lookup cannot throw), the validator is blocked —
marked `passed = false` with the single severity-Error
`"Prerequisites didn't pass"` issue and its geometric check skipped — if and
only if some prerequisite has `max_severity` `ERROR`, or `WARNING` with the
forgive flag reading false; otherwise it executes. -/
theorem C3_blocked_iff_prerequisite_severity (jd : JsonData) (vs : Validators)
    (target : String) (info : ValidatorInfo)
    (hfind : vs.find? (fun v => v.1 == target) = some (target, info))
    (hblk : has_validator_block jd target = true)
    (hsafe : ∀ p ∈ info.prerequisites, ∃ pv, vs.find? (fun v => v.1 == p) = some pv ∧
      (pv.2.max_severity = VSeverity.WARNING →
        (info.forgive_warnings.find? (fun e => e.1 == p)).isSome)) :
    ((∃ p ∈ info.prerequisites, blocking_prereqB vs info.forgive_warnings p = true) →
      ∃ jd' blk,
        check_prerequisite_completion jd vs target =
          Except.ok (jd',
            [{ checkName := target, issues := [synthetic_issue blocked_message] }]) ∧
        validator_executes (jd',
          [{ checkName := target, issues := [synthetic_issue blocked_message] }]) = false ∧
        get_validator_block jd' target = some blk ∧
        blk.passed = some false ∧
        blk.issues = some [synthetic_issue_json blocked_message]) ∧
    ((¬ ∃ p ∈ info.prerequisites, blocking_prereqB vs info.forgive_warnings p = true) →
      check_prerequisite_completion jd vs target = Except.ok (jd, []) ∧
      validator_executes (jd, []) = true) := by
  have hscan := prereq_blocked_ok vs info.forgive_warnings info.prerequisites hsafe
  have hf : ∀ b, (blocked_marking b).name = b.name := fun b => rfl
  constructor
  · intro hex
    have hany : info.prerequisites.any (blocking_prereqB vs info.forgive_warnings) = true :=
      List.any_eq_true.mpr (by obtain ⟨p, hp, hb⟩ := hex; exact ⟨p, hp, hb⟩)
    have hupd := update_validator_block_ok jd target blocked_marking hblk
    obtain ⟨blk0, hblk0⟩ := get_validator_block_isSome jd target hblk
    refine ⟨{ requirements := update_rjson_list target blocked_marking jd.requirements },
      blocked_marking blk0, ?_, rfl, ?_, rfl, rfl⟩
    · simp only [check_prerequisite_completion, hfind, hblk, not_true, hscan, hany]
      rw [show update_validator_block jd target (fun blk =>
        { blk with passed := some false,
                   issues := some [synthetic_issue_json blocked_message] }) =
          Except.ok { requirements := update_rjson_list target blocked_marking jd.requirements }
        from hupd]
      simp
    · rw [get_validator_block_update_self jd target blocked_marking hf, hblk0]
      rfl
  · intro hnex
    have hany : info.prerequisites.any (blocking_prereqB vs info.forgive_warnings) = false := by
      cases hcase : info.prerequisites.any (blocking_prereqB vs info.forgive_warnings) with
      | true =>
        obtain ⟨p, hp, hb⟩ := List.any_eq_true.mp hcase
        exact absurd ⟨p, hp, hb⟩ hnex
      | false => rfl
    refine ⟨?_, rfl⟩
    simp only [check_prerequisite_completion, hfind, hblk, not_true, hscan, hany]
    simp

/-- C3 (counterexample): validator Q declares prerequisite P without an
explicit forgive-warnings entry and P's recorded severity is Warning; the
claim's blocking condition holds (severity Warning with forgive flag reading
false), yet the code neither blocks Q nor lets it execute — the
`forgive_warnings.at(prereq)` lookup throws `std::out_of_range`. -/
theorem C3_counterexample_missing_forgive_entry :
    blocking_prereqB
      [("P", ⟨[], [], VSeverity.WARNING⟩), ("Q", ⟨["P"], [], VSeverity.NONE⟩)] [] "P" = true ∧
    check_prerequisite_completion (two_block_doc "P" "Q")
      [("P", ⟨[], [], VSeverity.WARNING⟩), ("Q", ⟨["P"], [], VSeverity.NONE⟩)]
      "Q" = Except.error "std::out_of_range" := by
  exact ⟨rfl, rfl⟩

/-- Witness for C3 at a concrete pair of inputs: B lists A with
`forgive_warnings = false` while A's severity is Warning, so B is blocked; C
lists A with `forgive_warnings = true`, so C executes. -/
theorem C3_blocked_iff_prerequisite_severity_witness :
    (∃ jd' blk,
      check_prerequisite_completion (two_block_doc "A" "B")
        [("A", ⟨[], [], VSeverity.WARNING⟩), ("B", ⟨["A"], [("A", false)], VSeverity.NONE⟩)]
        "B" = Except.ok (jd',
          [{ checkName := "B", issues := [synthetic_issue blocked_message] }]) ∧
      validator_executes (jd',
        [{ checkName := "B", issues := [synthetic_issue blocked_message] }]) = false ∧
      get_validator_block jd' "B" = some blk ∧
      blk.passed = some false ∧
      blk.issues = some [synthetic_issue_json blocked_message]) ∧
    (check_prerequisite_completion (two_block_doc "A" "C")
        [("A", ⟨[], [], VSeverity.WARNING⟩), ("C", ⟨["A"], [("A", true)], VSeverity.NONE⟩)]
        "C" = Except.ok (two_block_doc "A" "C", []) ∧
      validator_executes (two_block_doc "A" "C", []) = true) := by
  constructor
  · exact (C3_blocked_iff_prerequisite_severity (two_block_doc "A" "B")
      [("A", ⟨[], [], VSeverity.WARNING⟩), ("B", ⟨["A"], [("A", false)], VSeverity.NONE⟩)]
      "B" ⟨["A"], [("A", false)], VSeverity.NONE⟩ rfl rfl
      (by
        intro p hp
        have hpA : p = "A" := List.mem_singleton.mp hp
        subst hpA
        exact ⟨("A", ⟨[], [], VSeverity.WARNING⟩), rfl, fun _ => rfl⟩)).1
      ⟨"A", List.mem_singleton.mpr rfl, rfl⟩
  · exact (C3_blocked_iff_prerequisite_severity (two_block_doc "A" "C")
      [("A", ⟨[], [], VSeverity.WARNING⟩), ("C", ⟨["A"], [("A", true)], VSeverity.NONE⟩)]
      "C" ⟨["A"], [("A", true)], VSeverity.NONE⟩ rfl rfl
      (by
        intro p hp
        have hpA : p = "A" := List.mem_singleton.mp hp
        subst hpA
        exact ⟨("A", ⟨[], [], VSeverity.WARNING⟩), rfl, fun _ => rfl⟩)).2
      (by
        rintro ⟨p, hp, hb⟩
        have hpA : p = "A" := List.mem_singleton.mp hp
        subst hpA
        exact absurd hb (by decide))

/-- C4 (code evaluation): with prerequisite `alpha` declared by `beta` without
an explicit forgive-warnings entry and `alpha`'s recorded severity Warning,
handling the blocked validator `beta` throws `std::out_of_range` out of
`check_prerequisite_completion` instead of degrading to a synthetic issue. -/
theorem C4_blocked_handling_throws :
    check_prerequisite_completion (two_block_doc "alpha" "beta")
      [("alpha", ⟨[], [], VSeverity.WARNING⟩), ("beta", ⟨["alpha"], [], VSeverity.NONE⟩)]
      "beta" = Except.error "std::out_of_range" := by
  rfl

/-! ### The topological-sort invariants of `create_validation_queue` -/

lemma count_filterMap_if (u name n : String) :
    ∀ l : List String,
    (l.filterMap (fun q => if q == u then some name else none)).count n =
      if name = n then l.count u else 0 := by
  intro l
  induction l with
  | nil => simp
  | cons a t ih =>
    rw [List.filterMap_cons]
    by_cases hau : (a == u) = true
    · have ha : a = u := by simpa using hau
      rw [if_pos hau, List.count_cons, ih, ha, List.count_cons]
      by_cases hnn : name = n <;> simp [hnn]
    · have ha : a ≠ u := by simpa using hau
      rw [if_neg hau, ih, List.count_cons]
      simp [ha]

lemma count_graph_deps_not_mem (u n : String) :
    ∀ vs : Validators, n ∉ keys vs → (graph_deps vs u).count n = 0 := by
  intro vs
  induction vs with
  | nil => simp [graph_deps]
  | cons v t ih =>
    intro hn
    have hvn : v.1 ≠ n := fun h => hn (by rw [← h]; exact List.mem_map.mpr ⟨v, List.mem_cons_self v t, rfl⟩)
    have hnt : n ∉ keys t := fun h => hn (List.mem_cons_of_mem _ h)
    rw [graph_deps, List.flatMap_cons, List.count_append, count_filterMap_if,
      if_neg hvn]
    have := ih hnt
    rw [graph_deps] at this
    omega

lemma count_graph_deps (vs : Validators) (hnd : (keys vs).Nodup) (u n : String) :
    (graph_deps vs u).count n = (prereqsOf vs n).count u := by
  induction vs with
  | nil => simp [graph_deps, prereqsOf]
  | cons v t ih =>
    have hndt : (keys t).Nodup := (List.nodup_cons.mp hnd).2
    have hhead : v.1 ∉ keys t := (List.nodup_cons.mp hnd).1
    rw [graph_deps, List.flatMap_cons, List.count_append, count_filterMap_if]
    by_cases hv : v.1 = n
    · have hbeq : (v.1 == n) = true := by simpa using hv
      rw [if_pos hv]
      simp only [prereqsOf, List.find?_cons, hbeq]
      have hz := count_graph_deps_not_mem u n t (hv ▸ hhead)
      rw [graph_deps] at hz
      omega
    · have hbeq : (v.1 == n) = false := by simpa using hv
      rw [if_neg hv]
      simp only [prereqsOf, List.find?_cons, hbeq]
      have hih := ih hndt
      rw [graph_deps, prereqsOf] at hih
      omega

lemma mem_graph_deps (vs : Validators) (hnd : (keys vs).Nodup) (u n : String) :
    n ∈ graph_deps vs u ↔ u ∈ prereqsOf vs n := by
  rw [← List.count_pos_iff, ← List.count_pos_iff, count_graph_deps vs hnd]

lemma mem_keys_of_mem_graph_deps (vs : Validators) (u n : String)
    (h : n ∈ graph_deps vs u) : n ∈ keys vs := by
  by_contra hn
  have := count_graph_deps_not_mem u n vs hn
  have hpos := List.count_pos_iff.mpr h
  omega

lemma filter_not_mem_split (out : List String) (u : String) (hu : u ∉ out) :
    ∀ l : List String,
    (l.filter (fun p => decide (p ∉ out))).length =
      (l.filter (fun p => decide (p ∉ out ++ [u]))).length + l.count u := by
  intro l
  induction l with
  | nil => simp
  | cons a t ih =>
    rw [List.filter_cons, List.filter_cons, List.count_cons]
    by_cases hau : a = u
    · have h1 : (decide (a ∉ out)) = true := by
        subst hau
        simpa using hu
      have h2 : (decide (a ∉ out ++ [u])) = false := by
        subst hau
        simp
      have hbeq : (a == u) = true := by simpa using hau
      simp only [h1, h2, hbeq, if_true]
      simp only [show (false = true) = False from by simp, if_false, List.length_cons]
      omega
    · have hiff : (a ∉ out) ↔ (a ∉ out ++ [u]) := by
        simp only [List.mem_append, List.mem_singleton]
        constructor
        · intro h hc
          rcases hc with hc | hc
          · exact h hc
          · exact hau hc
        · intro h hc
          exact h (Or.inl hc)
      have hbeq : (a == u) = false := by simpa using hau
      by_cases ha : (a ∉ out)
      · simp only [decide_eq_true ha, decide_eq_true (hiff.mp ha), hbeq, if_true]
        simp only [show (false = true) = False from by simp, if_false, List.length_cons]
        omega
      · simp only [decide_eq_false ha, decide_eq_false (fun h => ha (hiff.mpr h)), hbeq]
        simp only [show (false = true) = False from by simp, if_false]
        omega

lemma deg_out_append (vs : Validators) (out : List String) (u : String)
    (hu : u ∉ out) (n : String) :
    deg_out vs out n = deg_out vs (out ++ [u]) n + ((prereqsOf vs n).count u : Int) := by
  rw [deg_out, deg_out, filter_not_mem_split out u hu (prereqsOf vs n)]
  push_cast
  ring

lemma find?_eq_of_mem_nodup :
    ∀ (vs : Validators), (keys vs).Nodup → ∀ (n : String) (i : ValidatorInfo),
    (n, i) ∈ vs → vs.find? (fun v => v.1 == n) = some (n, i) := by
  intro vs
  induction vs with
  | nil => intro _ n i h; cases h
  | cons v t ih =>
    intro hnd n i h
    have hndt : (keys t).Nodup := (List.nodup_cons.mp hnd).2
    have hhead : v.1 ∉ keys t := (List.nodup_cons.mp hnd).1
    rcases List.mem_cons.mp h with h1 | h1
    · rw [← h1]
      exact List.find?_cons_of_pos t (by simp)
    · have hvn : v.1 ≠ n := by
        intro hc
        exact hhead (hc ▸ List.mem_map.mpr ⟨(n, i), h1, rfl⟩)
      rw [List.find?_cons_of_neg t (by simp [hvn]), ih hndt n i h1]

lemma prereqsOf_eq_of_mem (vs : Validators) (hnd : (keys vs).Nodup)
    (n : String) (i : ValidatorInfo) (h : (n, i) ∈ vs) :
    prereqsOf vs n = i.prerequisites := by
  rw [prereqsOf, find?_eq_of_mem_nodup vs hnd n i h]

lemma mem_keys_iff (vs : Validators) (n : String) :
    n ∈ keys vs ↔ ∃ i, (n, i) ∈ vs := by
  rw [keys, List.mem_map]
  constructor
  · rintro ⟨v, hv, rfl⟩
    exact ⟨v.2, hv⟩
  · rintro ⟨i, hi⟩
    exact ⟨(n, i), hi, rfl⟩

lemma info_unique (vs : Validators) (hnd : (keys vs).Nodup)
    (n : String) (i j : ValidatorInfo) (hi : (n, i) ∈ vs) (hj : (n, j) ∈ vs) : i = j := by
  have h1 := find?_eq_of_mem_nodup vs hnd n i hi
  have h2 := find?_eq_of_mem_nodup vs hnd n j hj
  rw [h1] at h2
  exact congrArg Prod.snd (Option.some.inj h2)

lemma indexOf_lt_of_mem_take :
    ∀ (l : List String) (i : Nat) (p : String), p ∈ l.take i → l.indexOf p < i := by
  intro l
  induction l with
  | nil => intro i p h; simp at h
  | cons a t ih =>
    intro i p h
    cases i with
    | zero => simp at h
    | succ j =>
      rw [List.take_succ_cons] at h
      rcases List.mem_cons.mp h with h1 | h1
      · rw [h1, List.indexOf_cons_self]
        omega
      · by_cases hpa : p = a
        · rw [hpa, List.indexOf_cons_self]
          omega
        · rw [List.indexOf_cons_ne t (fun hc => hpa hc.symm)]
          have := ih j p h1
          omega

lemma ordered_take_indexOf (l : List String) (f : String → List String)
    (hord : ∀ i (h : i < l.length), ∀ p ∈ f (l.get ⟨i, h⟩), p ∈ l.take i)
    (n : String) (hn : n ∈ l) (p : String) (hp : p ∈ f n) :
    p ∈ l ∧ l.indexOf p < l.indexOf n := by
  have hlt : l.indexOf n < l.length := List.indexOf_lt_length.mpr hn
  have hget : l.get ⟨l.indexOf n, hlt⟩ = n := List.indexOf_get hlt
  have hpt : p ∈ l.take (l.indexOf n) := hord (l.indexOf n) hlt p (by rw [hget]; exact hp)
  exact ⟨List.take_subset _ _ hpt, indexOf_lt_of_mem_take l (l.indexOf n) p hpt⟩

lemma process_neighbors_spec (vs : Validators) (out : List String) (u : String)
    (hu : u ∉ out) (hupr : ∀ p ∈ prereqsOf vs u, p ∈ out)
    (hclosed : ∀ m ∈ out, ∀ p ∈ prereqsOf vs m, p ∈ out) :
    ∀ (ns : List String) (d : String → Int) (q : List String) (rem : Validators),
    (∀ m ∈ ns, m ∈ keys vs ∧ u ∈ prereqsOf vs m) →
    (∀ m ∈ keys vs, d m = deg_out vs (out ++ [u]) m + (ns.count m : Int)) →
    (∀ m ∈ keys vs, (m ∈ q ↔ (d m = 0 ∧ m ∉ out ++ [u]))) →
    ((out ++ [u] ++ q).Nodup) →
    (∀ x ∈ q, x ∈ keys vs) →
    (rem = vs.filter (fun v => decide (v.1 ∉ out ++ [u] ++ q))) →
    (∀ m ∈ keys vs, (process_neighbors d q rem ns).1 m = deg_out vs (out ++ [u]) m) ∧
    (∀ m ∈ keys vs, (m ∈ (process_neighbors d q rem ns).2.1 ↔
      ((process_neighbors d q rem ns).1 m = 0 ∧ m ∉ out ++ [u]))) ∧
    ((out ++ [u] ++ (process_neighbors d q rem ns).2.1).Nodup) ∧
    (∀ x ∈ (process_neighbors d q rem ns).2.1, x ∈ keys vs) ∧
    ((process_neighbors d q rem ns).2.2 =
      vs.filter (fun v => decide (v.1 ∉ out ++ [u] ++ (process_neighbors d q rem ns).2.1))) := by
  intro ns
  induction ns with
  | nil =>
    intro d q rem hns hdeg hqiff hnodup hsub hrem
    refine ⟨?_, ?_, hnodup, hsub, hrem⟩
    · intro m hm
      have := hdeg m hm
      simpa using this
    · intro m hm
      have hd := hdeg m hm
      have : d m = deg_out vs (out ++ [u]) m := by simpa using hd
      rw [process_neighbors]
      exact hqiff m hm
  | cons n rest ih =>
    intro d q rem hns hdeg hqiff hnodup hsub hrem
    obtain ⟨hnk, hupn⟩ := hns n (List.mem_cons_self n rest)
    have hdn_eq : d n = deg_out vs (out ++ [u]) n + ((rest.count n : Int) + 1) := by
      have := hdeg n hnk
      rw [List.count_cons] at this
      simpa using this
    have hdeg_nonneg : (0 : Int) ≤ deg_out vs (out ++ [u]) n := Int.natCast_nonneg _
    have hdpos : 1 ≤ d n := by
      have : (0 : Int) ≤ (rest.count n : Int) := Int.natCast_nonneg _
      omega
    have hnq : n ∉ q := by
      intro hmem
      have := (hqiff n hnk).mp hmem
      omega
    simp only [process_neighbors]
    by_cases hdn : d n - 1 = 0
    · -- the decrement reaches zero: n is pushed
      have hdeg0 : deg_out vs (out ++ [u]) n = 0 ∧ (rest.count n : Int) = 0 := by
        constructor <;> omega
      have hnout : n ∉ out := by
        intro hmem
        exact hu (hclosed n hmem u hupn)
      have hnu : n ≠ u := by
        intro hc
        exact hu (hupr u (hc ▸ hupn))
      have hnout' : n ∉ out ++ [u] := by
        simp only [List.mem_append, List.mem_singleton]
        rintro (hc | hc)
        · exact hnout hc
        · exact hnu hc
      simp only [if_pos hdn]
      have hns' : ∀ m ∈ rest, m ∈ keys vs ∧ u ∈ prereqsOf vs m :=
        fun m hm => hns m (List.mem_cons_of_mem n hm)
      have hdeg' : ∀ m ∈ keys vs,
          (fun m' => if m' = n then d n - 1 else d m') m =
            deg_out vs (out ++ [u]) m + ((rest.count m : Int)) := by
        intro m hm
        show (if m = n then d n - 1 else d m) = _
        by_cases hmn : m = n
        · subst hmn
          rw [if_pos rfl]
          omega
        · rw [if_neg hmn]
          have := hdeg m hm
          rw [List.count_cons] at this
          have hne : (n == m) = false := by simpa using fun hc => hmn hc.symm
          rw [hne] at this
          simpa using this
      have hqiff' : ∀ m ∈ keys vs, (m ∈ q ++ [n] ↔
          ((fun m' => if m' = n then d n - 1 else d m') m = 0 ∧ m ∉ out ++ [u])) := by
        intro m hm
        show m ∈ q ++ [n] ↔ ((if m = n then d n - 1 else d m) = 0 ∧ m ∉ out ++ [u])
        by_cases hmn : m = n
        · subst hmn
          rw [if_pos rfl]
          constructor
          · intro _
            exact ⟨hdn, hnout'⟩
          · intro _
            simp
        · rw [if_neg hmn]
          rw [List.mem_append, List.mem_singleton]
          constructor
          · rintro (hc | hc)
            · exact (hqiff m hm).mp hc
            · exact absurd hc hmn
          · intro hc
            exact Or.inl ((hqiff m hm).mpr hc)
      have hnodup' : (out ++ [u] ++ (q ++ [n])).Nodup := by
        have hrw : out ++ [u] ++ (q ++ [n]) = (out ++ [u] ++ q) ++ [n] := by
          simp [List.append_assoc]
        rw [hrw]
        rw [List.nodup_append]
        refine ⟨hnodup, List.nodup_singleton n, ?_⟩
        intro a ha
        rw [List.mem_singleton]
        intro hc
        subst hc
        rcases List.mem_append.mp ha with hc | hc
        · exact hnout' hc
        · exact hnq hc
      have hsub' : ∀ x ∈ q ++ [n], x ∈ keys vs := by
        intro x hx
        rcases List.mem_append.mp hx with hc | hc
        · exact hsub x hc
        · rw [List.mem_singleton] at hc
          exact hc ▸ hnk
      have hrem' : rem.filter (fun v => v.1 ≠ n) =
          vs.filter (fun v => decide (v.1 ∉ out ++ [u] ++ (q ++ [n]))) := by
        rw [hrem, List.filter_filter]
        apply List.filter_congr
        intro v _
        have hiff : (v.1 ≠ n ∧ (v.1 ∉ out ++ [u] ++ q)) ↔
            v.1 ∉ out ++ [u] ++ (q ++ [n]) := by
          simp only [List.mem_append, List.mem_singleton]
          tauto
        calc (decide (v.1 ≠ n) && decide (v.1 ∉ out ++ [u] ++ q))
            = decide (v.1 ≠ n ∧ (v.1 ∉ out ++ [u] ++ q)) := by
              rw [Bool.decide_and]
          _ = decide (v.1 ∉ out ++ [u] ++ (q ++ [n])) := by
              rw [decide_eq_decide]
              exact hiff
      exact ih (fun m' => if m' = n then d n - 1 else d m') (q ++ [n])
        (rem.filter (fun v => v.1 ≠ n)) hns' hdeg' hqiff' hnodup' hsub' hrem'
    · -- the decrement does not reach zero
      simp only [if_neg hdn]
      have hns' : ∀ m ∈ rest, m ∈ keys vs ∧ u ∈ prereqsOf vs m :=
        fun m hm => hns m (List.mem_cons_of_mem n hm)
      have hdeg' : ∀ m ∈ keys vs,
          (fun m' => if m' = n then d n - 1 else d m') m =
            deg_out vs (out ++ [u]) m + ((rest.count m : Int)) := by
        intro m hm
        show (if m = n then d n - 1 else d m) = _
        by_cases hmn : m = n
        · subst hmn
          rw [if_pos rfl]
          omega
        · rw [if_neg hmn]
          have := hdeg m hm
          rw [List.count_cons] at this
          have hne : (n == m) = false := by simpa using fun hc => hmn hc.symm
          rw [hne] at this
          simpa using this
      have hqiff' : ∀ m ∈ keys vs, (m ∈ q ↔
          ((fun m' => if m' = n then d n - 1 else d m') m = 0 ∧ m ∉ out ++ [u])) := by
        intro m hm
        show m ∈ q ↔ ((if m = n then d n - 1 else d m) = 0 ∧ m ∉ out ++ [u])
        by_cases hmn : m = n
        · subst hmn
          rw [if_pos rfl]
          constructor
          · intro hc
            exact absurd hc hnq
          · rintro ⟨hc, _⟩
            exact absurd hc hdn
        · rw [if_neg hmn]
          exact hqiff m hm
      exact ih (fun m' => if m' = n then d n - 1 else d m') q rem
        hns' hdeg' hqiff' hnodup hsub hrem

lemma take_append_le {α : Type} :
    ∀ (l l₂ : List α) (i : Nat), i ≤ l.length → (l ++ l₂).take i = l.take i := by
  intro l
  induction l with
  | nil =>
    intro l₂ i h
    have : i = 0 := Nat.le_zero.mp h
    simp [this]
  | cons a t ih =>
    intro l₂ i h
    cases i with
    | zero => simp
    | succ j =>
      rw [List.cons_append, List.take_succ_cons, List.take_succ_cons,
        ih l₂ j (by simpa using h)]

lemma deg_out_zero_subset (vs : Validators) (out : List String) (n : String)
    (h : deg_out vs out n = 0) : ∀ p ∈ prereqsOf vs n, p ∈ out := by
  intro p hp
  by_contra hnp
  have hmem : p ∈ (prereqsOf vs n).filter (fun p => decide (p ∉ out)) :=
    List.mem_filter.mpr ⟨hp, by simpa using hnp⟩
  have hpos : 0 < ((prereqsOf vs n).filter (fun p => decide (p ∉ out))).length :=
    List.length_pos_of_mem hmem
  rw [deg_out] at h
  omega

lemma deg_out_ne_zero_witness (vs : Validators) (out : List String) (n : String)
    (h : deg_out vs out n ≠ 0) : ∃ p ∈ prereqsOf vs n, p ∉ out := by
  rw [deg_out] at h
  have hlen : ((prereqsOf vs n).filter (fun p => decide (p ∉ out))).length ≠ 0 := by
    intro hc
    rw [hc] at h
    exact h rfl
  obtain ⟨p, hp⟩ := List.exists_mem_of_length_pos (Nat.pos_of_ne_zero hlen)
  have := List.mem_filter.mp hp
  exact ⟨p, this.1, by simpa using this.2⟩

lemma kahn_loop_spec (vs : Validators) (hnd : (keys vs).Nodup) :
    ∀ (fuel : Nat) (q : List String) (d : String → Int) (out : List String)
      (rem : Validators),
    ((out ++ q).Nodup) →
    (∀ x ∈ out ++ q, x ∈ keys vs) →
    (∀ n ∈ keys vs, d n = deg_out vs out n) →
    (∀ n ∈ keys vs, (n ∈ q ↔ (d n = 0 ∧ n ∉ out))) →
    (rem = vs.filter (fun v => decide (v.1 ∉ out ++ q))) →
    (∀ i (h : i < out.length), ∀ p ∈ prereqsOf vs (out.get ⟨i, h⟩), p ∈ out.take i) →
    (vs.length + 1 ≤ fuel + out.length) →
    ((kahn_loop (graph_deps vs) fuel q d out rem).1.Nodup) ∧
    (∀ x ∈ (kahn_loop (graph_deps vs) fuel q d out rem).1, x ∈ keys vs) ∧
    (∀ i (h : i < (kahn_loop (graph_deps vs) fuel q d out rem).1.length),
      ∀ p ∈ prereqsOf vs ((kahn_loop (graph_deps vs) fuel q d out rem).1.get ⟨i, h⟩),
        p ∈ (kahn_loop (graph_deps vs) fuel q d out rem).1.take i) ∧
    ((kahn_loop (graph_deps vs) fuel q d out rem).2 =
      vs.filter (fun v => decide (v.1 ∉ (kahn_loop (graph_deps vs) fuel q d out rem).1))) ∧
    (∀ n ∈ keys vs, n ∉ (kahn_loop (graph_deps vs) fuel q d out rem).1 →
      ∃ p ∈ prereqsOf vs n, p ∉ (kahn_loop (graph_deps vs) fuel q d out rem).1) := by
  intro fuel
  induction fuel with
  | zero =>
    intro q d out rem hnodup hsub _ _ _ _ hfuel
    exfalso
    have houtsub : out ⊆ keys vs := fun x hx =>
      hsub x (List.mem_append.mpr (Or.inl hx))
    have houtnd : out.Nodup := (List.nodup_append.mp hnodup).1
    have hle : out.length ≤ (keys vs).length :=
      (houtnd.subperm houtsub).length_le
    have hkeys : (keys vs).length = vs.length := List.length_map _ _
    omega
  | succ fuel ih =>
    intro q d out rem hnodup hsub hdeg hqiff hrem hord hfuel
    cases q with
    | nil =>
      rw [show kahn_loop (graph_deps vs) (fuel + 1) [] d out rem = (out, rem) from rfl]
      refine ⟨?_, ?_, hord, ?_, ?_⟩
      · simpa using hnodup
      · intro x hx
        exact hsub x (List.mem_append.mpr (Or.inl hx))
      · rw [hrem]
        apply List.filter_congr
        intro v _
        rw [decide_eq_decide]
        simp
      · intro n hn hnout
        have hnq := hqiff n hn
        simp only [List.not_mem_nil, false_iff] at hnq
        have hdne : d n ≠ 0 := by
          intro hc
          exact hnq ⟨hc, hnout⟩
        rw [hdeg n hn] at hdne
        exact deg_out_ne_zero_witness vs out n hdne
    | cons u qs =>
      have huq : u ∈ keys vs :=
        hsub u (List.mem_append.mpr (Or.inr (List.mem_cons_self u qs)))
      have hdisj := List.disjoint_of_nodup_append hnodup
      have huout : u ∉ out := fun hc => hdisj hc (List.mem_cons_self u qs)
      have huqs : u ∉ qs := by
        have := (List.nodup_append.mp hnodup).2.1
        exact (List.nodup_cons.mp this).1
      have hd_u : d u = 0 :=
        ((hqiff u huq).mp (List.mem_cons_self u qs)).1
      have hdeg_u : deg_out vs out u = 0 := by
        rw [← hdeg u huq]
        exact hd_u
      have hupr : ∀ p ∈ prereqsOf vs u, p ∈ out :=
        deg_out_zero_subset vs out u hdeg_u
      have hclosed : ∀ m ∈ out, ∀ p ∈ prereqsOf vs m, p ∈ out := by
        intro m hm p hp
        obtain ⟨⟨i, hi⟩, hget⟩ := List.mem_iff_get.mp hm
        have := hord i hi p (by rw [hget]; exact hp)
        exact List.take_subset i out this
      have hns : ∀ m ∈ graph_deps vs u, m ∈ keys vs ∧ u ∈ prereqsOf vs m :=
        fun m hm => ⟨mem_keys_of_mem_graph_deps vs u m hm,
          (mem_graph_deps vs hnd u m).mp hm⟩
      have hdeg_in : ∀ m ∈ keys vs,
          d m = deg_out vs (out ++ [u]) m + (((graph_deps vs u).count m : Int)) := by
        intro m hm
        rw [hdeg m hm, deg_out_append vs out u huout m, count_graph_deps vs hnd u m]
      have hqiff_in : ∀ m ∈ keys vs, (m ∈ qs ↔ (d m = 0 ∧ m ∉ out ++ [u])) := by
        intro m hm
        by_cases hmu : m = u
        · subst hmu
          constructor
          · intro hc
            exact absurd hc huqs
          · rintro ⟨_, hc⟩
            exact absurd (List.mem_append.mpr (Or.inr (List.mem_singleton.mpr rfl))) hc
        · have hmem : m ∈ qs ↔ m ∈ u :: qs := by
            constructor
            · exact List.mem_cons_of_mem u
            · intro hc
              rcases List.mem_cons.mp hc with hc | hc
              · exact absurd hc hmu
              · exact hc
          have hout : m ∉ out ↔ m ∉ out ++ [u] := by
            simp only [List.mem_append, List.mem_singleton]
            constructor
            · intro h hc
              rcases hc with hc | hc
              · exact h hc
              · exact hmu hc
            · intro h hc
              exact h (Or.inl hc)
          rw [hmem, hqiff m hm, ← hout]
      have happ : out ++ [u] ++ qs = out ++ u :: qs := by simp
      have hnodup_in : (out ++ [u] ++ qs).Nodup := by
        rw [happ]
        exact hnodup
      have hsub_in : ∀ x ∈ qs, x ∈ keys vs := fun x hx =>
        hsub x (List.mem_append.mpr (Or.inr (List.mem_cons_of_mem u hx)))
      have hrem_in : rem = vs.filter (fun v => decide (v.1 ∉ out ++ [u] ++ qs)) := by
        rw [hrem]
        apply List.filter_congr
        intro v _
        rw [decide_eq_decide, happ]
      obtain ⟨sdeg, sqiff, snodup, ssub, srem⟩ :=
        process_neighbors_spec vs out u huout hupr hclosed (graph_deps vs u)
          d qs rem hns hdeg_in hqiff_in hnodup_in hsub_in hrem_in
      have hord' : ∀ i (h : i < (out ++ [u]).length),
          ∀ p ∈ prereqsOf vs ((out ++ [u]).get ⟨i, h⟩), p ∈ (out ++ [u]).take i := by
        intro i hi p hp
        rw [List.length_append, List.length_singleton] at hi
        by_cases hilt : i < out.length
        · have hget : (out ++ [u]).get ⟨i, by
              rw [List.length_append, List.length_singleton]; omega⟩ =
              out.get ⟨i, hilt⟩ := by
            exact List.getElem_append_left hilt
          rw [take_append_le out [u] i (by omega)]
          exact hord i hilt p (by rw [← hget]; exact hp)
        · have hieq : i = out.length := by omega
          have hget : (out ++ [u]).get ⟨i, by
              rw [List.length_append, List.length_singleton]; omega⟩ = u := by
            exact List.getElem_concat_length out u i hieq _
          rw [hieq, List.take_left]
          exact hupr p (by rw [← hget]; exact hp)
      have hnodup' : ((out ++ [u]) ++
          (process_neighbors d qs rem (graph_deps vs u)).2.1).Nodup := snodup
      have hsub' : ∀ x ∈ (out ++ [u]) ++
          (process_neighbors d qs rem (graph_deps vs u)).2.1, x ∈ keys vs := by
        intro x hx
        rcases List.mem_append.mp hx with hc | hc
        · rcases List.mem_append.mp hc with hc | hc
          · exact hsub x (List.mem_append.mpr (Or.inl hc))
          · rw [List.mem_singleton] at hc
            exact hc ▸ huq
        · exact ssub x hc
      have hfuel' : vs.length + 1 ≤ fuel + (out ++ [u]).length := by
        rw [List.length_append, List.length_singleton]
        omega
      have hres := ih (process_neighbors d qs rem (graph_deps vs u)).2.1
        (process_neighbors d qs rem (graph_deps vs u)).1 (out ++ [u])
        (process_neighbors d qs rem (graph_deps vs u)).2.2
        hnodup' hsub' sdeg sqiff srem hord' hfuel'
      have hstep : kahn_loop (graph_deps vs) (fuel + 1) (u :: qs) d out rem =
          kahn_loop (graph_deps vs) fuel
            (process_neighbors d qs rem (graph_deps vs u)).2.1
            (process_neighbors d qs rem (graph_deps vs u)).1 (out ++ [u])
            (process_neighbors d qs rem (graph_deps vs u)).2.2 := rfl
      rw [hstep]
      exact hres

lemma mem_q0_iff (vs : Validators) (hnd : (keys vs).Nodup)
    (n : String) (i : ValidatorInfo) (hmem : (n, i) ∈ vs) :
    (n ∈ ((vs.filter (fun v => v.2.prerequisites.isEmpty)).map Prod.fst) ↔
      i.prerequisites.isEmpty = true) := by
  constructor
  · intro h
    obtain ⟨w, hw, hw1⟩ := List.mem_map.mp h
    have hwvs := (List.mem_filter.mp hw).1
    have hwempty := (List.mem_filter.mp hw).2
    have hweq : w = (n, w.2) := by
      rw [← hw1]
    have : w.2 = i := by
      apply info_unique vs hnd n w.2 i _ hmem
      rw [← hweq]
      exact hwvs
    rw [← this]
    exact hwempty
  · intro h
    apply List.mem_map.mpr
    refine ⟨(n, i), List.mem_filter.mpr ⟨hmem, h⟩, rfl⟩

lemma create_validation_queue_spec (vs : Validators) (hnd : (keys vs).Nodup) :
    ((create_validation_queue vs).1.Nodup) ∧
    (∀ x ∈ (create_validation_queue vs).1, x ∈ keys vs) ∧
    (∀ i (h : i < (create_validation_queue vs).1.length),
      ∀ p ∈ prereqsOf vs ((create_validation_queue vs).1.get ⟨i, h⟩),
        p ∈ (create_validation_queue vs).1.take i) ∧
    ((create_validation_queue vs).2 =
      (vs.filter (fun v => decide (v.1 ∉ (create_validation_queue vs).1))).map
        force_error) ∧
    (∀ n ∈ keys vs, n ∉ (create_validation_queue vs).1 →
      ∃ p ∈ prereqsOf vs n, p ∉ (create_validation_queue vs).1) := by
  have hq0sub : List.Sublist
      ((vs.filter (fun v => v.2.prerequisites.isEmpty)).map Prod.fst) (keys vs) :=
    (List.filter_sublist vs).map Prod.fst
  have hnodup0 : (([] : List String) ++
      (vs.filter (fun v => v.2.prerequisites.isEmpty)).map Prod.fst).Nodup := by
    rw [List.nil_append]
    exact hnd.sublist hq0sub
  have hsub0 : ∀ x ∈ ([] : List String) ++
      (vs.filter (fun v => v.2.prerequisites.isEmpty)).map Prod.fst, x ∈ keys vs := by
    intro x hx
    rw [List.nil_append] at hx
    exact hq0sub.subset hx
  have hdeg0 : ∀ n ∈ keys vs, init_indegree vs n = deg_out vs [] n := by
    intro n _
    rw [init_indegree, deg_out]
    have hft : (prereqsOf vs n).filter (fun p => decide (p ∉ ([] : List String))) =
        prereqsOf vs n := by
      apply List.filter_eq_self.mpr
      intro a _
      simp
    rw [hft]
  have hqiff0 : ∀ n ∈ keys vs,
      (n ∈ (vs.filter (fun v => v.2.prerequisites.isEmpty)).map Prod.fst ↔
        (init_indegree vs n = 0 ∧ n ∉ ([] : List String))) := by
    intro n hn
    obtain ⟨i, hi⟩ := (mem_keys_iff vs n).mp hn
    have hpe := prereqsOf_eq_of_mem vs hnd n i hi
    rw [mem_q0_iff vs hnd n i hi, init_indegree, hpe]
    constructor
    · intro h
      refine ⟨?_, by simp⟩
      have : i.prerequisites = [] := List.isEmpty_iff.mp h
      rw [this]
      rfl
    · rintro ⟨h, _⟩
      have hlen : i.prerequisites.length = 0 := by
        omega
      exact List.isEmpty_iff.mpr (List.length_eq_zero.mp hlen)
  have hrem0 : vs.filter (fun v => ¬ v.2.prerequisites.isEmpty) =
      vs.filter (fun v => decide (v.1 ∉ ([] : List String) ++
        (vs.filter (fun v => v.2.prerequisites.isEmpty)).map Prod.fst)) := by
    apply List.filter_congr
    intro v hv
    rw [decide_eq_decide]
    have hveq : v = (v.1, v.2) := rfl
    have hmq := mem_q0_iff vs hnd v.1 v.2 (by rw [← hveq]; exact hv)
    rw [List.nil_append]
    constructor
    · intro h hc
      exact h (hmq.mp hc)
    · intro h hc
      exact h (hmq.mpr hc)
  have hord0 : ∀ i (h : i < ([] : List String).length),
      ∀ p ∈ prereqsOf vs (([] : List String).get ⟨i, h⟩),
        p ∈ ([] : List String).take i := by
    intro i h
    exact absurd h (by simp)
  have hfuel0 : vs.length + 1 ≤ (vs.length + 1) + ([] : List String).length := by
    simp
  have hres := kahn_loop_spec vs hnd (vs.length + 1)
    ((vs.filter (fun v => v.2.prerequisites.isEmpty)).map Prod.fst)
    (init_indegree vs) []
    (vs.filter (fun v => ¬ v.2.prerequisites.isEmpty))
    hnodup0 hsub0 (fun n hn => hdeg0 n hn) hqiff0 hrem0 hord0 hfuel0
  obtain ⟨h1, h2, h3, h4, h5⟩ := hres
  have hcq1 : (create_validation_queue vs).1 =
      (kahn_loop (graph_deps vs) (vs.length + 1)
        ((vs.filter (fun v => v.2.prerequisites.isEmpty)).map Prod.fst)
        (init_indegree vs) []
        (vs.filter (fun v => ¬ v.2.prerequisites.isEmpty))).1 := rfl
  have hcq2 : (create_validation_queue vs).2 =
      (kahn_loop (graph_deps vs) (vs.length + 1)
        ((vs.filter (fun v => v.2.prerequisites.isEmpty)).map Prod.fst)
        (init_indegree vs) []
        (vs.filter (fun v => ¬ v.2.prerequisites.isEmpty))).2.map force_error := rfl
  rw [hcq1, hcq2]
  exact ⟨h1, h2, h3, by rw [h4], h5⟩

lemma rem_names_iff (vs : Validators) (hnd : (keys vs).Nodup) (n : String) :
    n ∈ (create_validation_queue vs).2.map Prod.fst ↔
      (n ∈ keys vs ∧ n ∉ (create_validation_queue vs).1) := by
  obtain ⟨_, _, _, h4, _⟩ := create_validation_queue_spec vs hnd
  rw [h4, List.map_map]
  have hfe : (Prod.fst ∘ force_error) = (Prod.fst :
      String × ValidatorInfo → String) := rfl
  rw [hfe]
  constructor
  · intro h
    obtain ⟨v, hvf, hv1⟩ := List.mem_map.mp h
    have hv := List.mem_filter.mp hvf
    refine ⟨?_, ?_⟩
    · rw [← hv1]
      exact List.mem_map.mpr ⟨v, hv.1, rfl⟩
    · have := hv.2
      rw [← hv1]
      simpa using this
  · rintro ⟨hk, hq⟩
    obtain ⟨i, hi⟩ := (mem_keys_iff vs n).mp hk
    exact List.mem_map.mpr ⟨(n, i),
      List.mem_filter.mpr ⟨hi, by simpa using hq⟩, rfl⟩

/-- C10: `create_validation_queue` partitions the validator set — every
validator name appears exactly once in either the execution queue or the
unresolved set (each is duplicate-free and they are disjoint, and together
they cover the name set) — and every unresolved validator has its
`max_severity` forced to `ERROR`. -/
theorem C10_queue_partitions_validators (vs : Validators) (hnd : (keys vs).Nodup) :
    ((create_validation_queue vs).1.Nodup) ∧
    (((create_validation_queue vs).2.map Prod.fst).Nodup) ∧
    (∀ n, n ∈ keys vs ↔ (n ∈ (create_validation_queue vs).1 ∨
      n ∈ (create_validation_queue vs).2.map Prod.fst)) ∧
    (∀ n, ¬ (n ∈ (create_validation_queue vs).1 ∧
      n ∈ (create_validation_queue vs).2.map Prod.fst)) ∧
    (∀ v ∈ (create_validation_queue vs).2, v.2.max_severity = VSeverity.ERROR) := by
  obtain ⟨h1, h2, h3, h4, h5⟩ := create_validation_queue_spec vs hnd
  refine ⟨h1, ?_, ?_, ?_, ?_⟩
  · rw [h4, List.map_map]
    have hfe : (Prod.fst ∘ force_error) = (Prod.fst :
        String × ValidatorInfo → String) := rfl
    rw [hfe]
    exact hnd.sublist ((List.filter_sublist vs).map Prod.fst)
  · intro n
    constructor
    · intro hk
      by_cases hq : n ∈ (create_validation_queue vs).1
      · exact Or.inl hq
      · exact Or.inr ((rem_names_iff vs hnd n).mpr ⟨hk, hq⟩)
    · intro h
      rcases h with h | h
      · exact h2 n h
      · exact ((rem_names_iff vs hnd n).mp h).1
  · rintro n ⟨hq, hr⟩
    exact ((rem_names_iff vs hnd n).mp hr).2 hq
  · intro v hv
    rw [h4] at hv
    obtain ⟨w, _, hw⟩ := List.mem_map.mp hv
    rw [← hw]
    rfl

/-- Witness for C10 at a concrete validator set with a resolvable pair and a
two-cycle. -/
theorem C10_queue_partitions_validators_witness :
    ((create_validation_queue
      [("a", ⟨[], [], VSeverity.NONE⟩), ("b", ⟨["a"], [], VSeverity.NONE⟩),
       ("d", ⟨["e"], [], VSeverity.NONE⟩), ("e", ⟨["d"], [], VSeverity.NONE⟩)]).1.Nodup) ∧
    (∀ n, n ∈ keys
      [("a", ⟨[], [], VSeverity.NONE⟩), ("b", ⟨["a"], [], VSeverity.NONE⟩),
       ("d", ⟨["e"], [], VSeverity.NONE⟩), ("e", ⟨["d"], [], VSeverity.NONE⟩)] ↔
      (n ∈ (create_validation_queue
        [("a", ⟨[], [], VSeverity.NONE⟩), ("b", ⟨["a"], [], VSeverity.NONE⟩),
         ("d", ⟨["e"], [], VSeverity.NONE⟩), ("e", ⟨["d"], [], VSeverity.NONE⟩)]).1 ∨
       n ∈ (create_validation_queue
        [("a", ⟨[], [], VSeverity.NONE⟩), ("b", ⟨["a"], [], VSeverity.NONE⟩),
         ("d", ⟨["e"], [], VSeverity.NONE⟩), ("e", ⟨["d"], [], VSeverity.NONE⟩)]).2.map
           Prod.fst)) ∧
    (∀ v ∈ (create_validation_queue
      [("a", ⟨[], [], VSeverity.NONE⟩), ("b", ⟨["a"], [], VSeverity.NONE⟩),
       ("d", ⟨["e"], [], VSeverity.NONE⟩), ("e", ⟨["d"], [], VSeverity.NONE⟩)]).2,
      v.2.max_severity = VSeverity.ERROR) := by
  have h := C10_queue_partitions_validators
    [("a", ⟨[], [], VSeverity.NONE⟩), ("b", ⟨["a"], [], VSeverity.NONE⟩),
     ("d", ⟨["e"], [], VSeverity.NONE⟩), ("e", ⟨["d"], [], VSeverity.NONE⟩)] (by decide)
  exact ⟨h.1, h.2.2.1, h.2.2.2.2⟩

/-- C1: for every validator set whose prerequisite graph is acyclic (a rank
function witnesses the absence of cycles) and fully resolvable (every declared
prerequisite name is a member of the set), the execution order returned by
`create_validation_queue` contains every validator, and each validator appears
strictly after every one of its declared prerequisites. -/
theorem C1_execution_order_topological (vs : Validators) (hnd : (keys vs).Nodup)
    (hres : ∀ v ∈ vs, ∀ p ∈ v.2.prerequisites, p ∈ keys vs)
    (hacyc : ∃ rank : String → Nat,
      ∀ v ∈ vs, ∀ p ∈ v.2.prerequisites, rank p < rank v.1) :
    (∀ v ∈ vs, v.1 ∈ (create_validation_queue vs).1) ∧
    (∀ v ∈ vs, ∀ p ∈ v.2.prerequisites,
      p ∈ (create_validation_queue vs).1 ∧
      (create_validation_queue vs).1.indexOf p <
        (create_validation_queue vs).1.indexOf v.1) := by
  obtain ⟨h1, h2, h3, h4, h5⟩ := create_validation_queue_spec vs hnd
  obtain ⟨rank, hrank⟩ := hacyc
  have hcomplete : ∀ k, ∀ n, n ∈ keys vs → rank n ≤ k →
      n ∈ (create_validation_queue vs).1 := by
    intro k
    induction k with
    | zero =>
      intro n hn hle
      by_contra hq
      obtain ⟨p, hp, _⟩ := h5 n hn hq
      obtain ⟨i, hi⟩ := (mem_keys_iff vs n).mp hn
      rw [prereqsOf_eq_of_mem vs hnd n i hi] at hp
      have hlt : rank p < rank n := hrank (n, i) hi p hp
      omega
    | succ k ihk =>
      intro n hn hle
      by_contra hq
      obtain ⟨p, hp, hpq⟩ := h5 n hn hq
      obtain ⟨i, hi⟩ := (mem_keys_iff vs n).mp hn
      rw [prereqsOf_eq_of_mem vs hnd n i hi] at hp
      have hpk : p ∈ keys vs := hres (n, i) hi p hp
      have hlt : rank p < rank n := hrank (n, i) hi p hp
      exact hpq (ihk p hpk (by omega))
  constructor
  · intro v hv
    have hk : v.1 ∈ keys vs := List.mem_map.mpr ⟨v, hv, rfl⟩
    exact hcomplete (rank v.1) v.1 hk le_rfl
  · intro v hv p hp
    have hk : v.1 ∈ keys vs := List.mem_map.mpr ⟨v, hv, rfl⟩
    have hq : v.1 ∈ (create_validation_queue vs).1 :=
      hcomplete (rank v.1) v.1 hk le_rfl
    have hveq : v = (v.1, v.2) := rfl
    have hpp : p ∈ prereqsOf vs v.1 := by
      rw [prereqsOf_eq_of_mem vs hnd v.1 v.2 (by rw [← hveq]; exact hv)]
      exact hp
    exact ordered_take_indexOf (create_validation_queue vs).1 (prereqsOf vs)
      h3 v.1 hq p hpp

/-- Witness for C1 at the chain a ← b ← c (c requires a and b). -/
theorem C1_execution_order_topological_witness :
    (∀ v ∈ ([("a", ⟨[], [], VSeverity.NONE⟩), ("b", ⟨["a"], [], VSeverity.NONE⟩),
        ("c", ⟨["a", "b"], [], VSeverity.NONE⟩)] : Validators),
      v.1 ∈ (create_validation_queue
        [("a", ⟨[], [], VSeverity.NONE⟩), ("b", ⟨["a"], [], VSeverity.NONE⟩),
         ("c", ⟨["a", "b"], [], VSeverity.NONE⟩)]).1) ∧
    ((create_validation_queue
      [("a", ⟨[], [], VSeverity.NONE⟩), ("b", ⟨["a"], [], VSeverity.NONE⟩),
       ("c", ⟨["a", "b"], [], VSeverity.NONE⟩)]).1.indexOf "b" <
     (create_validation_queue
      [("a", ⟨[], [], VSeverity.NONE⟩), ("b", ⟨["a"], [], VSeverity.NONE⟩),
       ("c", ⟨["a", "b"], [], VSeverity.NONE⟩)]).1.indexOf "c") := by
  have h := C1_execution_order_topological
    [("a", ⟨[], [], VSeverity.NONE⟩), ("b", ⟨["a"], [], VSeverity.NONE⟩),
     ("c", ⟨["a", "b"], [], VSeverity.NONE⟩)] (by decide) (by decide)
    ⟨fun n => if n = "a" then 0 else if n = "b" then 1 else 2, by decide⟩
  refine ⟨h.1, ?_⟩
  exact (h.2 ("c", ⟨["a", "b"], [], VSeverity.NONE⟩) (by decide) "b" (by decide)).2

/-- C2: every validator that never reaches zero in-degree — every member of a
set of names each of which has a prerequisite inside the set (in particular
every member of a cycle), and every validator declaring a prerequisite absent
from the validator set — is excluded from the execution order and lands in the
returned unresolved set; `descript_unused_validators_to_json` then marks each
unresolved validator's JSON block `passed = false` with exactly one synthetic
severity-Error issue carrying the fixed message, and returns one in-memory
Error issue per unresolved validator under `invalid_prerequisites`. -/
theorem C2_unresolvable_excluded_and_marked (vs : Validators)
    (hnd : (keys vs).Nodup) (jd : JsonData)
    (hblocks : ∀ n ∈ (create_validation_queue vs).2.map Prod.fst,
      has_validator_block jd n = true) :
    (∀ C : List String, (∀ c ∈ C, c ∈ keys vs) →
      (∀ c ∈ C, ∃ p ∈ prereqsOf vs c, p ∈ C) →
      ∀ c ∈ C, c ∉ (create_validation_queue vs).1 ∧
        c ∈ (create_validation_queue vs).2.map Prod.fst) ∧
    (∀ v ∈ vs, ∀ p ∈ v.2.prerequisites, p ∉ keys vs →
      v.1 ∉ (create_validation_queue vs).1 ∧
      v.1 ∈ (create_validation_queue vs).2.map Prod.fst) ∧
    (∃ jd', descript_unused_validators_to_json jd (create_validation_queue vs).2 =
        Except.ok (jd',
          if 0 < (create_validation_queue vs).2.length then
            [{ checkName := "invalid_prerequisites",
               issues := List.replicate (create_validation_queue vs).2.length
                 (synthetic_issue unresolvable_message) }]
          else []) ∧
      (∀ n ∈ (create_validation_queue vs).2.map Prod.fst,
        ∃ blk, get_validator_block jd' n = some blk ∧
          blk.passed = some false ∧
          blk.issues = some [synthetic_issue_json unresolvable_message])) := by
  obtain ⟨h1, h2, h3, h4, h5⟩ := create_validation_queue_spec vs hnd
  refine ⟨?_, ?_, ?_⟩
  · intro C hCk hCcyc c hc
    have hstep : ∀ c ∈ C, c ∈ (create_validation_queue vs).1 →
        ∃ p, p ∈ C ∧ p ∈ (create_validation_queue vs).1 ∧
          (create_validation_queue vs).1.indexOf p <
            (create_validation_queue vs).1.indexOf c := by
      intro x hx hxq
      obtain ⟨p, hpPr, hpC⟩ := hCcyc x hx
      have hidx := ordered_take_indexOf (create_validation_queue vs).1
        (prereqsOf vs) h3 x hxq p hpPr
      exact ⟨p, hpC, hidx.1, hidx.2⟩
    have hmain : ∀ k, ∀ x ∈ C, x ∈ (create_validation_queue vs).1 →
        (create_validation_queue vs).1.indexOf x ≤ k → False := by
      intro k
      induction k with
      | zero =>
        intro x hx hxq hle
        obtain ⟨p, _, _, hlt⟩ := hstep x hx hxq
        omega
      | succ k ihk =>
        intro x hx hxq hle
        obtain ⟨p, hpC, hpq, hlt⟩ := hstep x hx hxq
        exact ihk p hpC hpq (by omega)
    have hnq : c ∉ (create_validation_queue vs).1 := by
      intro hq
      exact hmain ((create_validation_queue vs).1.indexOf c) c hc hq le_rfl
    exact ⟨hnq, (rem_names_iff vs hnd c).mpr ⟨hCk c hc, hnq⟩⟩
  · intro v hv p hp hpk
    have hveq : v = (v.1, v.2) := rfl
    have hnq : v.1 ∉ (create_validation_queue vs).1 := by
      intro hq
      have hpp : p ∈ prereqsOf vs v.1 := by
        rw [prereqsOf_eq_of_mem vs hnd v.1 v.2 (by rw [← hveq]; exact hv)]
        exact hp
      have hidx := ordered_take_indexOf (create_validation_queue vs).1
        (prereqsOf vs) h3 v.1 hq p hpp
      exact hpk (h2 p hidx.1)
    have hk : v.1 ∈ keys vs := List.mem_map.mpr ⟨v, hv, rfl⟩
    exact ⟨hnq, (rem_names_iff vs hnd v.1).mpr ⟨hk, hnq⟩⟩
  · have hpres : ∀ v ∈ (create_validation_queue vs).2,
        has_validator_block jd v.1 = true := by
      intro v hv
      exact hblocks v.1 (List.mem_map.mpr ⟨v, hv, rfl⟩)
    obtain ⟨jd', hrun, hmark, _, _⟩ :=
      descript_loop_spec (create_validation_queue vs).2 jd [] hpres
    refine ⟨jd', ?_, ?_⟩
    · simp only [descript_unused_validators_to_json, hrun, List.nil_append]
      by_cases hlen : 0 < (create_validation_queue vs).2.length
      · rw [if_pos (show 0 < (List.replicate (create_validation_queue vs).2.length
            (synthetic_issue unresolvable_message)).length by
              rw [List.length_replicate]; omega)]
        rw [if_pos hlen]
      · rw [if_neg (show ¬ 0 < (List.replicate (create_validation_queue vs).2.length
            (synthetic_issue unresolvable_message)).length by
              rw [List.length_replicate]; omega)]
        rw [if_neg hlen]
    · intro n hn
      exact hmark n hn

/-- Witness for C2 at a concrete set with the two-cycle d ↔ e and a validator
f whose prerequisite name is absent, against a document holding blocks for all
three. -/
theorem C2_unresolvable_excluded_and_marked_witness :
    ("d" ∉ (create_validation_queue
      [("d", ⟨["e"], [], VSeverity.NONE⟩), ("e", ⟨["d"], [], VSeverity.NONE⟩),
       ("f", ⟨["zzz"], [], VSeverity.NONE⟩)]).1 ∧
     "d" ∈ (create_validation_queue
      [("d", ⟨["e"], [], VSeverity.NONE⟩), ("e", ⟨["d"], [], VSeverity.NONE⟩),
       ("f", ⟨["zzz"], [], VSeverity.NONE⟩)]).2.map Prod.fst) ∧
    ("f" ∉ (create_validation_queue
      [("d", ⟨["e"], [], VSeverity.NONE⟩), ("e", ⟨["d"], [], VSeverity.NONE⟩),
       ("f", ⟨["zzz"], [], VSeverity.NONE⟩)]).1) ∧
    (∃ jd', descript_unused_validators_to_json
        (three_block_doc "d" "e" "f")
        (create_validation_queue
          [("d", ⟨["e"], [], VSeverity.NONE⟩), ("e", ⟨["d"], [], VSeverity.NONE⟩),
           ("f", ⟨["zzz"], [], VSeverity.NONE⟩)]).2 =
        Except.ok (jd',
          if 0 < (create_validation_queue
            [("d", ⟨["e"], [], VSeverity.NONE⟩), ("e", ⟨["d"], [], VSeverity.NONE⟩),
             ("f", ⟨["zzz"], [], VSeverity.NONE⟩)]).2.length then
            [{ checkName := "invalid_prerequisites",
               issues := List.replicate (create_validation_queue
                 [("d", ⟨["e"], [], VSeverity.NONE⟩), ("e", ⟨["d"], [], VSeverity.NONE⟩),
                  ("f", ⟨["zzz"], [], VSeverity.NONE⟩)]).2.length
                 (synthetic_issue unresolvable_message) }]
          else []) ∧
      (∀ n ∈ (create_validation_queue
          [("d", ⟨["e"], [], VSeverity.NONE⟩), ("e", ⟨["d"], [], VSeverity.NONE⟩),
           ("f", ⟨["zzz"], [], VSeverity.NONE⟩)]).2.map Prod.fst,
        ∃ blk, get_validator_block jd' n = some blk ∧
          blk.passed = some false ∧
          blk.issues = some [synthetic_issue_json unresolvable_message])) := by
  have h := C2_unresolvable_excluded_and_marked
    [("d", ⟨["e"], [], VSeverity.NONE⟩), ("e", ⟨["d"], [], VSeverity.NONE⟩),
     ("f", ⟨["zzz"], [], VSeverity.NONE⟩)] (by decide)
    (three_block_doc "d" "e" "f")
    (by decide)
  refine ⟨?_, ?_, h.2.2⟩
  · exact h.1 ["d", "e"] (by decide) (by decide) "d" (by decide)
  · exact (h.2.1 ("f", ⟨["zzz"], [], VSeverity.NONE⟩) (by decide) "zzz"
      (by decide) (by decide)).1

end AutowareValidation
